import Mathlib

/-!
Verification of the Tailscale network topology mapper core against its
natural-language specification.

The development shallowly embeds the relevant Python source files:

  * `src/services/policy_validator.py` (the `PolicyValidator` class),
  * `src/policy_parser.py` (the `PolicyParser._validate_policy_structure`
    and `_validate_ip_specifications` methods),
  * `src/network_graph.py` (the `NetworkGraph` class: `build_graph`,
    `_process_acls_batch`, `_process_grants_batch`, `_resolve_nodes`,
    `_resolve_grant_destinations`, `_get_node_color`, `_get_node_members`,
    `_get_node_tooltip`, `_get_comprehensive_tooltip`,
    `_update_comprehensive_tooltips`, `_get_grant_src_tooltip`,
    `_get_grant_dst_tooltip`), together with the constants of
    `src/config.py`.

Python strings are Lean `String`s, manipulated through their underlying
character lists.  Python `dict`s are modelled as insertion-ordered
association lists (`tlookup`/`tset`/`tmodify` below), which matches
CPython semantics: keys are unique, lookups find the entry, updates
preserve position, and fresh keys append at the end.  Python `set`s are
modelled as lists used only through membership and deduplication, which is
faithful because Python set iteration order is unspecified and the program
only relies on membership (shape promotion and edge deduplication are
idempotent and order-independent).  Python `int(...)` parsing is modelled
by `pyInt?` (ASCII whitespace, an optional sign, digits with single
underscores between digit groups).
-/

namespace TSMap

/-! ### Association tables (Python dict model) -/
/-- Lookup in an association list: the first entry with the given key,
like a Python dict access (keys in tables built here are unique). -/
def tlookup {κ β : Type} [DecidableEq κ] : List (κ × β) → κ → Option β
  | [], _ => none
  | (k, v) :: rest, q => if k = q then some v else tlookup rest q

/-- Overwrite-or-append, the semantics of `d[k] = v` on a Python dict:
replace the value at the first occurrence of the key, or append a fresh
entry at the end. -/
def tset {κ β : Type} [DecidableEq κ] : List (κ × β) → κ → β → List (κ × β)
  | [], q, v => [(q, v)]
  | (k, w) :: rest, q, v => if k = q then (q, v) :: rest else (k, w) :: tset rest q v

/-- Update the value stored at a key in place (used only after the key is
known to be present), the semantics of mutating `d[k]` in Python. -/
def tmodify {κ β : Type} [DecidableEq κ] (t : List (κ × β)) (q : κ) (f : β → β) :
    List (κ × β) :=
  t.map (fun p => if p.1 = q then (p.1, f p.2) else p)

/-! ### String helpers (Python string operations) -/
/-- Python `pat in s` (contiguous substring test). -/
def strContains (s pat : String) : Bool := decide (pat.data <:+: s.data)

/-- Python `s.startswith(pat)`. -/
def strStartsWith (s pat : String) : Bool := decide (pat.data <+: s.data)

/-- Python `s.endswith(pat)`. -/
def strEndsWith (s pat : String) : Bool := decide (pat.data <:+ s.data)

/-- Characters before the first occurrence of `c` (the whole list when `c`
does not occur): Python `s.split(c)[0]` for a one-character separator. -/
def takeBefore1 (c : Char) : List Char → List Char
  | [] => []
  | x :: xs => if x = c then [] else x :: takeBefore1 c xs

/-- Split at the first occurrence of a one-character separator, Python
`s.split(c, 1)` when the separator occurs (`none` when it does not). -/
def breakAt (c : Char) : List Char → Option (List Char × List Char)
  | [] => none
  | x :: xs =>
    if x = c then some ([], xs)
    else (breakAt c xs).map (fun p => (x :: p.1, p.2))

/-- String-level wrapper of `breakAt`. -/
def splitOnce (s : String) (c : Char) : Option (String × String) :=
  (breakAt c s.data).map (fun p => (String.mk p.1, String.mk p.2))

/-- Characters before the first occurrence of the two-character separator
`[a, b]`: Python `s.split(ab)[0]` for the separators used by the source
(`" ["`). -/
def takeBefore2 (a b : Char) : List Char → List Char
  | [] => []
  | [x] => [x]
  | x :: y :: rest =>
    if x = a ∧ y = b then [] else x :: takeBefore2 a b (y :: rest)

/-! ### Python `int(...)` (ASCII fragment) -/
/-- ASCII whitespace stripped by Python `int(str)`. -/
def isPySpace (c : Char) : Bool :=
  c = ' ' || c = '\t' || c = '\n' || c = '\x0d' || c = '\x0b' || c = '\x0c'

/-- Digit run with single underscores allowed between digit groups,
accumulating the value (the tail of CPython's integer literal grammar:
an underscore must be followed by a digit, and may not end the run). -/
def digitsGo (acc : Nat) : List Char → Option Nat
  | [] => some acc
  | c :: rest =>
    if c = '_' then
      match rest with
      | [] => none
      | c2 :: rest2 =>
        if c2.isDigit then digitsGo (acc * 10 + (c2.toNat - 48)) rest2 else none
    else if c.isDigit then digitsGo (acc * 10 + (c.toNat - 48)) rest else none

/-- Nonempty digit run (with underscores between digits) to its value. -/
def digitsVal? : List Char → Option Nat
  | [] => none
  | c :: rest => if c.isDigit then digitsGo (c.toNat - 48) rest else none

/-- Python `int(s)` on ASCII input: optional surrounding whitespace, an
optional sign, then digits with single underscores between digit groups.
`none` models the `ValueError` (message "invalid literal for int() ...").
Unicode digit support is irrelevant to the properties proved here and is
not modelled. -/
def pyStrip (s : String) : List Char :=
  ((s.data.dropWhile isPySpace).reverse.dropWhile isPySpace).reverse

/-- Sign handling of Python `int` over the whitespace-stripped core. -/
def pySign (core : List Char) : Option Int :=
  match core with
  | [] => none
  | c :: rest =>
    if c = '+' then (digitsVal? rest).map (fun n => (n : Int))
    else if c = '-' then (digitsVal? rest).map (fun n => -(n : Int))
    else (digitsVal? (c :: rest)).map (fun n => (n : Int))

def pyInt? (s : String) : Option Int := pySign (pyStrip s)

/-! ### Configuration constants (`src/config.py`) -/
/-- Default company domain (`config.COMPANY_DOMAIN`). -/
def COMPANY_DOMAIN : String := "example.com"

/-- Node color table (`config.NODE_COLORS`). -/
def NODE_COLORS (k : String) : String :=
  if k = "tag" then "#00cc66"
  else if k = "group" then "#FFFF00"
  else if k = "host" then "#ff6666"
  else ""

/-- The protocol whitelist (`config.VALID_PROTOCOLS`); a Python set used
only through membership. -/
def VALID_PROTOCOLS : List String :=
  ["tcp", "udp", "icmp", "ah", "esp", "gre", "ipv6-icmp", "ospf", "sctp"]

/-- Lower port bound (`config.MIN_PORT`). -/
def MIN_PORT : Int := 1

/-- Upper port bound (`config.MAX_PORT`). -/
def MAX_PORT : Int := 65535

/-- Fixed rendering of the `VALID_PROTOCOLS` set inside error messages
(CPython set repr order is unspecified; the theorems below never depend on
this string). -/
def validProtocolsRepr : String :=
  "\x7b'tcp', 'udp', 'icmp', 'ah', 'esp', 'gre', 'ipv6-icmp', 'ospf', 'sctp'\x7d"

namespace PolicyValidator

/-! ### `src/services/policy_validator.py`: `PolicyValidator` -/
/-- The helper `_is_port_or_range`: true when the spec splits into one or
two `int(...)`-parseable halves around the first dash. -/
def isPortOrRange (spec : String) : Bool :=
  match splitOnce spec '-' with
  | some (a, b) => (pyInt? a).isSome && (pyInt? b).isSome
  | none => (pyInt? spec).isSome

/-- Message prefix `"Grant {grant_num}: "` shared by this validator's
errors. -/
def grantMsg (n : Nat) (rest : String) : String :=
  "Grant " ++ toString n ++ ": " ++ rest

/-- The `except ValueError` handler around `_validate_port_specification`'s
range branch: a raised message containing "invalid literal" (only possible
when the spec itself contains that text, or when `int()` itself failed) is
replaced by the range-format message. -/
def rangeCatch (n : Nat) (fullSpec msg : String) : String :=
  if strContains msg "invalid literal" then
    grantMsg n ("Invalid port range format in '" ++ fullSpec ++ "'")
  else msg

/-- `PolicyValidator._validate_port_specification`. -/
def validatePortSpecification (portSpec : String) (n : Nat) (fullSpec : String) :
    Except String Unit :=
  match splitOnce portSpec '-' with
  | some (a, b) =>
    match pyInt? a with
    | none =>
      .error (grantMsg n ("Invalid port range format in '" ++ fullSpec ++ "'"))
    | some s =>
      match pyInt? b with
      | none =>
        .error (grantMsg n ("Invalid port range format in '" ++ fullSpec ++ "'"))
      | some e =>
        if s < MIN_PORT ∨ s > MAX_PORT then
          .error (rangeCatch n fullSpec
            (grantMsg n ("Start port " ++ toString s ++
              " out of valid range (1-65535) in '" ++ fullSpec ++ "'")))
        else if e < MIN_PORT ∨ e > MAX_PORT then
          .error (rangeCatch n fullSpec
            (grantMsg n ("End port " ++ toString e ++
              " out of valid range (1-65535) in '" ++ fullSpec ++ "'")))
        else if s > e then
          .error (rangeCatch n fullSpec
            (grantMsg n ("Invalid port range " ++ toString s ++ "-" ++ toString e ++
              " in '" ++ fullSpec ++ "'")))
        else .ok ()
  | none =>
    match pyInt? portSpec with
    | some p =>
      if p < MIN_PORT ∨ p > MAX_PORT then
        .error (grantMsg n ("Port " ++ toString p ++
          " out of valid range (1-65535) in '" ++ fullSpec ++ "'"))
      else .ok ()
    | none =>
      .error (grantMsg n ("Invalid port format in '" ++ fullSpec ++ "'"))

/-- One iteration of the loop in
`PolicyValidator.validate_ip_specifications`. -/
def validateIpSpec (spec : String) (n : Nat) : Except String Unit :=
  if spec = "*" then .ok ()
  else
    match splitOnce spec ':' with
    | some (protocol, portSpec) =>
      if protocol ∈ VALID_PROTOCOLS then
        validatePortSpecification portSpec n spec
      else
        .error (grantMsg n ("Invalid protocol '" ++ protocol ++
          "'. Valid protocols: " ++ validProtocolsRepr))
    | none =>
      if isPortOrRange spec then
        validatePortSpecification spec n spec
      else if spec ∈ VALID_PROTOCOLS then .ok ()
      else
        .error (grantMsg n ("Invalid specification '" ++ spec ++
          "'. Must be a port number, port range, protocol name, or protocol:port format. " ++
          "Valid protocols: " ++ validProtocolsRepr))

/-- `PolicyValidator.validate_ip_specifications` over a list of specs
(its `isinstance(ip_specs, str)` wrapping of a single string into a
one-element list is left to callers). -/
def validateIpSpecifications (specs : List String) (n : Nat) : Except String Unit :=
  match specs with
  | [] => .ok ()
  | s :: rest => do
    validateIpSpec s n
    validateIpSpecifications rest n

end PolicyValidator

/-! ### Specification-side characterization of valid ip specs (claim C7) -/
/-- A port token in range: some integer that Python `int(...)` accepts,
between `MIN_PORT` and `MAX_PORT`. -/
def ValidPortInt (s : String) : Prop :=
  ∃ p : Int, pyInt? s = some p ∧ MIN_PORT ≤ p ∧ p ≤ MAX_PORT

/-- A port range token `"<start>-<end>"`: both halves around the first
dash parse, both are in range, and start ≤ end. -/
def ValidPortRange (s : String) : Prop :=
  ∃ a b pa pb, splitOnce s '-' = some (a, b) ∧
    pyInt? a = some pa ∧ pyInt? b = some pb ∧
    MIN_PORT ≤ pa ∧ pa ≤ MAX_PORT ∧ MIN_PORT ≤ pb ∧ pb ≤ MAX_PORT ∧ pa ≤ pb

/-- The claim's list of allowed ip specifications: `"*"`, a bare port, a
port range, a whitelisted protocol alone, or `"<protocol>:<port-or-range>"`
with a whitelisted protocol; ports in 1..65535 and ranges ordered. -/
def AllowedIpSpec (spec : String) : Prop :=
  spec = "*" ∨
  (∃ protocol portSpec, splitOnce spec ':' = some (protocol, portSpec) ∧
    protocol ∈ VALID_PROTOCOLS ∧ (ValidPortInt portSpec ∨ ValidPortRange portSpec)) ∨
  (splitOnce spec ':' = none ∧
    (ValidPortInt spec ∨ ValidPortRange spec ∨ spec ∈ VALID_PROTOCOLS))

/-! ### `src/policy_parser.py`: `PolicyParser._validate_policy_structure`

The parsed policy document is modelled as JSON-like values (`JVal`), with
grants and ACLs as association lists of fields, so that the `isinstance`
type tests of the validator are meaningful. -/
/-- A parsed JSON/HuJSON value, as far as the validator inspects it.
Mapping values are reduced to their key-ordered field lists; numbers,
booleans and null are carried only so that non-list/non-string values
exist. -/
inductive JVal : Type where
  | str (s : String)
  | num (n : Int)
  | bool (b : Bool)
  | null
  | arr (xs : List JVal)
  | obj (fields : List (String × JVal))

/-- Python `isinstance(v, list)`. -/
def JVal.isList : JVal → Bool
  | .arr _ => true
  | _ => false

/-- Python `isinstance(v, str)`. -/
def JVal.isStr : JVal → Bool
  | .str _ => true
  | _ => false

/-- Python `type(v)` as rendered into the group error message. -/
def pyTypeName : JVal → String
  | .str _ => "<class 'str'>"
  | .num _ => "<class 'int'>"
  | .bool _ => "<class 'bool'>"
  | .null => "<class 'NoneType'>"
  | .arr _ => "<class 'list'>"
  | .obj _ => "<class 'dict'>"

namespace PolicyParser

/-- The groups loop of `_validate_policy_structure` (the `group:` naming
check only logs a warning and is not modelled). -/
def validateGroups : List (String × JVal) → Except String Unit
  | [] => .ok ()
  | (name, members) :: rest =>
    if members.isList then validateGroups rest
    else .error ("Group '" ++ name ++ "' members must be a list, got " ++
      pyTypeName members)

/-- The hosts loop of `_validate_policy_structure`. -/
def validateHosts : List (String × JVal) → Except String Unit
  | [] => .ok ()
  | (name, ip) :: rest =>
    if ip.isStr then validateHosts rest
    else .error ("Host '" ++ name ++ "' IP address must be a string, got " ++
      pyTypeName ip)

/-- Nonempty all-digit run to its value (the `\d+` groups of the port
regex `^(\d+)(?:-(\d+))?$`; ASCII digits). -/
def digitsOnlyNat? (l : List Char) : Option Nat :=
  if l ≠ [] ∧ l.all Char.isDigit then
    some (l.foldl (fun acc c => acc * 10 + (c.toNat - 48)) 0)
  else none

/-- Match of `^(\d+)(?:-(\d+))?$` against a port spec: a bare port or a
dash-separated pair of ports. -/
def portPattern (s : String) : Option (Nat × Option Nat) :=
  match splitOnce s '-' with
  | none => (digitsOnlyNat? s.data).map (fun v => (v, none))
  | some (a, b) =>
    match digitsOnlyNat? a.data, digitsOnlyNat? b.data with
    | some va, some vb => some (va, some vb)
    | _, _ => none

/-- One iteration of `PolicyParser._validate_ip_specifications`: unknown
protocols (with or without a port) only log warnings; only a malformed or
out-of-range port specification raises. -/
def parserValidateIpSpec (spec : String) (n : Nat) : Except String Unit :=
  if spec = "*" then .ok ()
  else
    match splitOnce spec ':' with
    | some (_, portSpec) =>
      match portPattern portSpec with
      | none =>
        .error ("Grant " ++ toString n ++ " invalid port specification: '" ++
          portSpec ++ "'")
      | some (startPort, endPort?) =>
        let endPort := endPort?.getD startPort
        if ¬ (1 ≤ startPort ∧ startPort ≤ 65535) ∨ ¬ (1 ≤ endPort ∧ endPort ≤ 65535) then
          .error ("Grant " ++ toString n ++ " port out of range (1-65535): '" ++
            portSpec ++ "'")
        else if startPort > endPort then
          .error ("Grant " ++ toString n ++ " invalid port range '" ++ portSpec ++
            "': start > end")
        else .ok ()
    | none => .ok ()

/-- `_validate_ip_specifications` over the grant's `ip` list.  A non-string
entry would make the Python `in` test raise `TypeError`; that crash is
modelled as an error value. -/
def parserValidateIpList (xs : List JVal) (n : Nat) : Except String Unit :=
  match xs with
  | [] => .ok ()
  | .str spec :: rest => do
    parserValidateIpSpec spec n
    parserValidateIpList rest n
  | _ :: _ => .error "TypeError: argument of type 'int' is not iterable"

/-- The per-grant body of the grants loop in `_validate_policy_structure`
(`i` is the 0-based position; messages use the 1-based index).  Field
order follows the source: required `src`/`dst` presence, `src`/`dst`
list-ness, then the optional fields `ip`, `via`, `app`, `srcPosture`
each required to be a list when present, then ip-spec validation. -/
def validateGrant (i : Nat) (grant : List (String × JVal)) : Except String Unit :=
  let n := i + 1
  match tlookup grant "src" with
  | none => .error ("Grant " ++ toString n ++ " missing required 'src' field")
  | some srcV =>
    match tlookup grant "dst" with
    | none => .error ("Grant " ++ toString n ++ " missing required 'dst' field")
    | some dstV =>
      if ¬ srcV.isList = true then
        .error ("Grant " ++ toString n ++ " 'src' must be a list")
      else if ¬ dstV.isList = true then
        .error ("Grant " ++ toString n ++ " 'dst' must be a list")
      else
        match tlookup grant "ip" with
        | some v =>
          if ¬ v.isList = true then
            .error ("Grant " ++ toString n ++ " 'ip' must be a list when specified")
          else checkRemaining n grant
        | none => checkRemaining n grant
where
  /-- The optional-field loop after `ip`, then ip-spec validation. -/
  checkRemaining (n : Nat) (grant : List (String × JVal)) : Except String Unit :=
    match tlookup grant "via" with
    | some v =>
      if ¬ v.isList = true then
        .error ("Grant " ++ toString n ++ " 'via' must be a list when specified")
      else checkApp n grant
    | none => checkApp n grant
  checkApp (n : Nat) (grant : List (String × JVal)) : Except String Unit :=
    match tlookup grant "app" with
    | some v =>
      if ¬ v.isList = true then
        .error ("Grant " ++ toString n ++ " 'app' must be a list when specified")
      else checkSrcPosture n grant
    | none => checkSrcPosture n grant
  checkSrcPosture (n : Nat) (grant : List (String × JVal)) : Except String Unit :=
    match tlookup grant "srcPosture" with
    | some v =>
      if ¬ v.isList = true then
        .error ("Grant " ++ toString n ++ " 'srcPosture' must be a list when specified")
      else checkIp n grant
    | none => checkIp n grant
  checkIp (n : Nat) (grant : List (String × JVal)) : Except String Unit :=
    match tlookup grant "ip" with
    | some (.arr xs) => parserValidateIpList xs n
    | some _ => .ok ()
    | none => .ok ()

/-- The grants loop of `_validate_policy_structure`. -/
def validateGrantsFrom (i : Nat) : List (List (String × JVal)) → Except String Unit
  | [] => .ok ()
  | g :: rest => do
    validateGrant i g
    validateGrantsFrom (i + 1) rest

/-- The ACLs loop of `_validate_policy_structure`. -/
def validateAclsFrom (i : Nat) : List (List (String × JVal)) → Except String Unit
  | [] => .ok ()
  | acl :: rest =>
    let n := i + 1
    match tlookup acl "src" with
    | none => .error ("ACL " ++ toString n ++ " missing required 'src' field")
    | some _ =>
      match tlookup acl "dst" with
      | none => .error ("ACL " ++ toString n ++ " missing required 'dst' field")
      | some _ => validateAclsFrom (i + 1) rest

end PolicyParser

/-- The parsed policy document, as the validator sees it. -/
structure ParsedPolicy : Type where
  groups : List (String × JVal)
  hosts : List (String × JVal)
  grants : List (List (String × JVal))
  acls : List (List (String × JVal))

/-- `PolicyParser._validate_policy_structure`: groups, hosts, grants, ACLs
in source order, stopping at the first error. -/
def validatePolicyStructure (p : ParsedPolicy) : Except String Unit := do
  PolicyParser.validateGroups p.groups
  PolicyParser.validateHosts p.hosts
  PolicyParser.validateGrantsFrom 0 p.grants
  PolicyParser.validateAclsFrom 0 p.acls

/-! ### `src/network_graph.py`: the `NetworkGraph` builder -/
/-- Python `", ".join(xs)` and friends. -/
def joinComma (xs : List String) : String := String.intercalate ", " xs

/-- The `app` field of a grant: string, list, or mapping (only the
mapping's keys are ever read downstream). -/
inductive AppVal : Type where
  | str (s : String)
  | arr (xs : List String)
  | obj (keys : List String)
deriving DecidableEq, Repr

/-- A grant rule as the graph builder reads it (field presence modelled
with `Option`). -/
structure Grant : Type where
  src : List String
  dst : List String
  ip : Option (List String) := none
  via : Option (List String) := none
  srcPosture : Option (List String) := none
  dstPosture : Option (List String) := none
  app : Option AppVal := none
deriving DecidableEq, Repr

/-- A legacy ACL rule as the graph builder reads it. -/
structure Acl : Type where
  action : Option String := none
  src : List String
  dst : List String
deriving DecidableEq, Repr

/-- Searchable node metadata (`NetworkGraph.node_metadata` values). -/
structure NodeMeta : Type where
  nodeId : String
  ruleType : String
  srcRules : List String
  dstRules : List String
  protocols : List String
  via : List String
  posture : List String
  apps : List String
  members : List String
deriving DecidableEq, Repr

/-- Searchable edge metadata (`NetworkGraph.edge_metadata` values); the
`action` key is present only for ACL-produced records. -/
structure EdgeMeta : Type where
  src : String
  dst : String
  ruleType : String
  ruleIndex : Nat
  action : Option String
  protocols : List String
  via : List String
  posture : List String
  apps : List String
deriving DecidableEq, Repr

/-- The constructor context of `NetworkGraph`: hosts, groups, and the
optional rule-to-line map (empty lists degrade to no line suffixes,
matching `rule_line_numbers or {'acls': [], 'grants': []}`). -/
structure GraphEnv : Type where
  hosts : List (String × String)
  groups : List (String × List String)
  aclLines : List Nat := []
  grantLines : List Nat := []

/-- `_get_node_color`, parameterized by the configured company domain. -/
def getNodeColorD (domain node : String) : String :=
  if strStartsWith node "tag:" = true then NODE_COLORS "tag"
  else if strContains node domain = true || strStartsWith node "autogroup:" = true ||
      strStartsWith node "group:" = true then NODE_COLORS "group"
  else NODE_COLORS "host"

/-- `_get_node_color` with the default `config.COMPANY_DOMAIN`. -/
def getNodeColor (node : String) : String := getNodeColorD COMPANY_DOMAIN node

/-- `_get_node_members`. -/
def getNodeMembers (env : GraphEnv) (node : String) : List String :=
  (tlookup env.groups node).getD []

/-- `_get_node_tooltip` (the `autogroup:` branch and the final branch both
return the node id and are collapsed). -/
def getNodeTooltip (env : GraphEnv) (node : String) : String :=
  let hostKey := String.mk (takeBefore1 ':' node.data)
  match tlookup env.hosts hostKey with
  | some ip => ip
  | none =>
    match tlookup env.groups node with
    | some mems => "Group Members: " ++ joinComma mems
    | none => node

/-- Python `node.split(" [")[0] if " [" in node and node.endswith("]")
else node`: the base id of a protocol-enhanced destination node. -/
def stripEnhanced (node : String) : String :=
  if strContains node " [" = true && strEndsWith node "]" = true then
    String.mk (takeBefore2 ' ' '[' node.data)
  else node

/-- The group-members tooltip line, truncated past five members. -/
def membersLine (members : List String) : String :=
  if members.length ≤ 5 then "👥 Group Members: " ++ joinComma members
  else "👥 Group Members: " ++ joinComma (members.take 3) ++ ", ... (+" ++
    toString (members.length - 3) ++ " more)"

/-- `_get_comprehensive_tooltip`.  Python's `list(set(xs))` has
unspecified order and is modelled by `List.dedup`; only line content that
never depends on that order is asserted in theorems. -/
def getComprehensiveTooltip (env : GraphEnv) (meta : List (String × NodeMeta))
    (node : String) : String :=
  let lines1 := [node]
  let basic := getNodeTooltip env node
  let lines2 :=
    if basic ≠ node ∧ (tlookup env.groups node).isNone then
      lines1 ++ ["ℹ️  " ++ basic]
    else lines1
  match tlookup meta node with
  | some m =>
    let lines3 := lines2 ++
      (if m.ruleType = "ACL" then ["🔒 Legacy ACL Rules"]
       else if m.ruleType = "Grant" then ["🎯 Modern Grant Rules"]
       else if m.ruleType = "Mixed" then ["🔄 Mixed (ACL + Grant Rules)"]
       else [])
    let lines4 :=
      if m.srcRules ≠ [] ∨ m.dstRules ≠ [] then
        lines3 ++ ["📋 Rule References:"] ++
          (if m.srcRules ≠ [] then ["  • Source: " ++ joinComma m.srcRules] else []) ++
          (if m.dstRules ≠ [] then ["  • Destination: " ++ joinComma m.dstRules] else [])
      else lines3
    let uniqueProtocols := m.protocols.dedup
    let lines5 :=
      if m.protocols ≠ [] ∧ (uniqueProtocols ≠ [] ∧ uniqueProtocols ≠ ["*"]) then
        lines4 ++ ["🌐 Protocols: " ++ joinComma uniqueProtocols]
      else lines4
    let lines6 :=
      if m.via ≠ [] then lines5 ++ ["🛤️  Via Routes: " ++ joinComma m.via.dedup]
      else lines5
    let lines7 :=
      if m.posture ≠ [] then lines6 ++ ["🔐 Posture Checks: " ++ joinComma m.posture.dedup]
      else lines6
    let lines8 :=
      if m.apps ≠ [] then lines7 ++ ["📱 Applications: " ++ joinComma m.apps.dedup]
      else lines7
    let lines9 := if m.members ≠ [] then lines8 ++ [membersLine m.members] else lines8
    String.intercalate "\n" lines9
  | none =>
    match tlookup env.groups node with
    | some mems => String.intercalate "\n" (lines2 ++ [membersLine mems])
    | none => String.intercalate "\n" lines2

/-- `_resolve_nodes`: the identifiers as a set (membership-only use). -/
def resolveNodes (nodes : List String) : List String := nodes.dedup

/-- Truthiness of `current_proto` in `_resolve_grant_destinations`:
`None` and the empty string are falsy. -/
def protoTruthy : Option String → Bool
  | some p => p ≠ ""
  | none => false

/-- The token flushed for a finished protocol run. -/
def flushTok (cur : Option String) (ports : List String) : String :=
  cur.getD "" ++ ":" ++ String.intercalate "," ports

/-- One iteration of the spec loop in `_resolve_grant_destinations`,
over the state (emitted tokens, current protocol, pending ports). -/
def consolidateStep (acc : List String × Option String × List String) (spec : String) :
    List String × Option String × List String :=
  let (ipSpecs, cur, ports) := acc
  match splitOnce spec ':' with
  | some (proto, port) =>
    if some proto ≠ cur then
      let flushed :=
        if protoTruthy cur = true ∧ ports ≠ [] then (ipSpecs ++ [flushTok cur ports], [])
        else (ipSpecs, ports)
      (flushed.1, some proto, flushed.2 ++ [port])
    else (ipSpecs, cur, ports ++ [port])
  | none =>
    let ipSpecs2 :=
      if protoTruthy cur = true ∧ ports ≠ [] then ipSpecs ++ [flushTok cur ports]
      else ipSpecs
    (ipSpecs2 ++ [spec], none, [])

/-- The consolidated protocol tokens of `_resolve_grant_destinations`
(the loop plus the trailing flush). -/
def consolidateIpSpecs (specs : List String) : List String :=
  let acc := specs.foldl consolidateStep ([], none, [])
  if protoTruthy acc.2.1 = true ∧ acc.2.2 ≠ [] then acc.1 ++ [flushTok acc.2.1 acc.2.2]
  else acc.1

/-- `_resolve_grant_destinations`. -/
def resolveGrantDestinations (g : Grant) : List String :=
  let dstNodes := resolveNodes g.dst
  match g.ip with
  | some specs =>
    if specs ≠ ["*"] then
      dstNodes.map (fun d => d ++ " [" ++ joinComma (consolidateIpSpecs specs) ++ "]")
    else dstNodes
  | none => dstNodes

/-- The grant's `app` field normalized to a list of capability
identifiers (`_process_grants_batch`): mapping keys, the list itself, or
the singleton string. -/
def appsOfGrant (g : Grant) : List String :=
  match g.app with
  | some (.obj keys) => keys
  | some (.arr xs) => xs
  | some (.str s) => [s]
  | none => []

/-- `_get_grant_src_tooltip`. -/
def getGrantSrcTooltip (env : GraphEnv) (meta : List (String × NodeMeta))
    (g : Grant) (node : String) : String :=
  if (tlookup meta node).isSome then getComprehensiveTooltip env meta node
  else
    let base := getNodeTooltip env node
    match g.srcPosture with
    | some ps => base ++ "\nPosture: " ++ joinComma ps
    | none => base

/-- `_get_grant_dst_tooltip` (fallback branch mirrors the source's ip,
via, app and dstPosture lines). -/
def getGrantDstTooltip (env : GraphEnv) (meta : List (String × NodeMeta))
    (g : Grant) (node : String) : String :=
  let baseNode := stripEnhanced node
  if (tlookup meta baseNode).isSome then getComprehensiveTooltip env meta baseNode
  else
    let t0 := getNodeTooltip env baseNode
    let t1 :=
      match g.ip with
      | some specs =>
        if specs ≠ ["*"] then t0 ++ "\nProtocols: " ++ joinComma specs else t0
      | none => t0
    let t2 :=
      match g.via with
      | some vs => t1 ++ "\nVia: " ++ joinComma vs
      | none => t1
    let t3 :=
      match g.app with
      | some (.obj keys) => t2 ++ "\nApp: " ++ joinComma keys
      | some (.arr xs) => t2 ++ "\nApp: " ++ joinComma xs
      | some (.str s) => t2 ++ "\nApp: " ++ s
      | none => t2
    match g.dstPosture with
    | some ps => t3 ++ "\nPosture: " ++ joinComma ps
    | none => t3

/-- Fresh metadata record for a first-seen node. -/
def freshMeta (env : GraphEnv) (node ruleType : String) : NodeMeta :=
  { nodeId := node, ruleType := ruleType, srcRules := [], dstRules := [],
    protocols := [], via := [], posture := [], apps := [],
    members := getNodeMembers env node }

/-- The `" (Ln {line})"` suffix when a line map covers the rule index. -/
def lineInfo (lines : List Nat) (i : Nat) : String :=
  match lines[i]? with
  | some ln => " (Ln " ++ toString ln ++ ")"
  | none => ""

/-- Mutable state threaded through batch processing: the `all_nodes`
dict, `self.node_metadata` and `self.edge_metadata`. -/
structure BState : Type where
  allNodes : List (String × (String × String × String))
  nodeMeta : List (String × NodeMeta)
  edgeMeta : List ((String × String) × EdgeMeta)

/-- Rule reference string for ACL rule `i` (0-based). -/
def aclRuleRef (env : GraphEnv) (i : Nat) : String :=
  "ACL rule " ++ toString (i + 1) ++ lineInfo env.aclLines i

/-- Rule reference string for grant rule `i` (0-based). -/
def grantRuleRef (env : GraphEnv) (i : Nat) : String :=
  "Grant rule " ++ toString (i + 1) ++ lineInfo env.grantLines i

/-- The source-node body of the ACL batch loop. -/
def aclSrcVisit (env : GraphEnv) (i : Nat) (st : BState) (src : String) : BState :=
  let allNodes :=
    if (tlookup st.allNodes src).isSome then st.allNodes
    else st.allNodes ++ [(src, (getNodeColor src, getNodeTooltip env src, "dot"))]
  let meta0 :=
    if (tlookup st.nodeMeta src).isSome then st.nodeMeta
    else st.nodeMeta ++ [(src, freshMeta env src "ACL")]
  let meta := tmodify meta0 src
    (fun m => { m with srcRules := m.srcRules ++ [aclRuleRef env i] })
  { st with allNodes := allNodes, nodeMeta := meta }

/-- The destination-node body of the ACL batch loop. -/
def aclDstVisit (env : GraphEnv) (i : Nat) (st : BState) (dst : String) : BState :=
  let allNodes :=
    if (tlookup st.allNodes dst).isSome then st.allNodes
    else st.allNodes ++ [(dst, (getNodeColor dst, getNodeTooltip env dst, "dot"))]
  let meta0 :=
    if (tlookup st.nodeMeta dst).isSome then st.nodeMeta
    else st.nodeMeta ++ [(dst, freshMeta env dst "ACL")]
  let meta := tmodify meta0 dst
    (fun m => { m with dstRules := m.dstRules ++ [aclRuleRef env i] })
  { st with allNodes := allNodes, nodeMeta := meta }

/-- Edge metadata written by ACL rule `i` for edge `(s, d)`. -/
def aclEdgeMetaOf (rule : Acl) (i : Nat) (s d : String) : EdgeMeta :=
  { src := s, dst := d, ruleType := "ACL", ruleIndex := i + 1,
    action := some (rule.action.getD "accept"),
    protocols := [], via := [], posture := [], apps := [] }

/-- One ACL rule of `_process_acls_batch`: node creation and metadata for
sources then destinations, then the edge cross product with edge
metadata.  Returns the updated state, the produced edges and the node ids
seen (the `acl_nodes` contribution). -/
def processAclRule (env : GraphEnv) (i : Nat) (rule : Acl) (st : BState) :
    BState × List (String × String) × List String :=
  let srcs := resolveNodes rule.src
  let dsts := resolveNodes rule.dst
  let st1 := srcs.foldl (aclSrcVisit env i) st
  let st2 := dsts.foldl (aclDstVisit env i) st1
  let st3 := srcs.foldl (fun acc s =>
    dsts.foldl (fun acc2 d =>
      { acc2 with edgeMeta := tset acc2.edgeMeta (s, d) (aclEdgeMetaOf rule i s d) }) acc) st2
  (st3, srcs.flatMap (fun s => dsts.map (fun d => (s, d))), srcs ++ dsts)

/-- `_process_acls_batch` from rule index `i`. -/
def processAclsFrom (env : GraphEnv) : Nat → List Acl → BState →
    BState × List (String × String) × List String
  | _, [], st => (st, [], [])
  | i, r :: rest, st =>
    let step := processAclRule env i r st
    let next := processAclsFrom env (i + 1) rest step.1
    (next.1, step.2.1 ++ next.2.1, step.2.2 ++ next.2.2)

/-- The source-node body of the grant batch loop. -/
def grantSrcVisit (env : GraphEnv) (g : Grant) (i : Nat) (st : BState) (src : String) :
    BState :=
  let allNodes :=
    if (tlookup st.allNodes src).isSome then st.allNodes
    else st.allNodes ++
      [(src, (getNodeColor src, getGrantSrcTooltip env st.nodeMeta g src, "triangle"))]
  let meta0 :=
    match tlookup st.nodeMeta src with
    | none => st.nodeMeta ++ [(src, freshMeta env src "Grant")]
    | some m =>
      if m.ruleType = "ACL" then
        tmodify st.nodeMeta src (fun m2 => { m2 with ruleType := "Mixed" })
      else st.nodeMeta
  let meta := tmodify meta0 src (fun m =>
    { m with
      srcRules := m.srcRules ++ [grantRuleRef env i],
      protocols := m.protocols ++ g.ip.getD [],
      via := m.via ++ g.via.getD [],
      posture := m.posture ++ g.srcPosture.getD [],
      apps := m.apps ++ appsOfGrant g })
  { st with allNodes := allNodes, nodeMeta := meta }

/-- The destination-node body of the grant batch loop: the graph node is
the (possibly enhanced) id, the metadata entry is keyed by the stripped
base id. -/
def grantDstVisit (env : GraphEnv) (g : Grant) (i : Nat) (st : BState) (dst : String) :
    BState :=
  let allNodes :=
    if (tlookup st.allNodes dst).isSome then st.allNodes
    else st.allNodes ++
      [(dst, (getNodeColor dst, getGrantDstTooltip env st.nodeMeta g dst, "triangle"))]
  let baseDst := stripEnhanced dst
  let meta0 :=
    match tlookup st.nodeMeta baseDst with
    | none => st.nodeMeta ++ [(baseDst, freshMeta env baseDst "Grant")]
    | some m =>
      if m.ruleType = "ACL" then
        tmodify st.nodeMeta baseDst (fun m2 => { m2 with ruleType := "Mixed" })
      else st.nodeMeta
  let meta := tmodify meta0 baseDst (fun m =>
    { m with
      dstRules := m.dstRules ++ [grantRuleRef env i],
      protocols := m.protocols ++ g.ip.getD [],
      via := m.via ++ g.via.getD [],
      posture := m.posture ++ g.dstPosture.getD [],
      apps := m.apps ++ appsOfGrant g })
  { st with allNodes := allNodes, nodeMeta := meta }

/-- Edge metadata written by grant rule `i` for edge `(s, d)`. -/
def grantEdgeMetaOf (g : Grant) (i : Nat) (s d : String) : EdgeMeta :=
  { src := s, dst := d, ruleType := "Grant", ruleIndex := i + 1, action := none,
    protocols := g.ip.getD [], via := g.via.getD [],
    posture := g.srcPosture.getD [] ++ g.dstPosture.getD [],
    apps := appsOfGrant g }

/-- One grant rule of `_process_grants_batch`.  The seen contribution is
the sources plus the stripped bases of the resolved destinations. -/
def processGrantRule (env : GraphEnv) (i : Nat) (g : Grant) (st : BState) :
    BState × List (String × String) × List String :=
  let srcs := resolveNodes g.src
  let dsts := resolveGrantDestinations g
  let st1 := srcs.foldl (grantSrcVisit env g i) st
  let st2 := dsts.foldl (grantDstVisit env g i) st1
  let st3 := srcs.foldl (fun acc s =>
    dsts.foldl (fun acc2 d =>
      { acc2 with edgeMeta := tset acc2.edgeMeta (s, d) (grantEdgeMetaOf g i s d) }) acc) st2
  (st3, srcs.flatMap (fun s => dsts.map (fun d => (s, d))), srcs ++ dsts.map stripEnhanced)

/-- `_process_grants_batch` from rule index `i`. -/
def processGrantsFrom (env : GraphEnv) : Nat → List Grant → BState →
    BState × List (String × String) × List String
  | _, [], st => (st, [], [])
  | i, g :: rest, st =>
    let step := processGrantRule env i g st
    let next := processGrantsFrom env (i + 1) rest step.1
    (next.1, step.2.1 ++ next.2.1, step.2.2 ++ next.2.2)

/-- The enhanced-sibling test of the Phase-2 loop:
`enhanced.startswith(f"{node_id} [") and enhanced.endswith("]")`. -/
def enhancedMatches (m nodeId : String) : Bool :=
  strStartsWith nodeId (m ++ " [") && strEndsWith nodeId "]"

/-- One Phase-2 promotion: the mixed base node and every enhanced sibling
get the hexagon shape (color and tooltip kept). -/
def promoteOne (m : String) (ns : List (String × (String × String × String))) :
    List (String × (String × String × String)) :=
  ns.map (fun p =>
    if p.1 = m ∨ enhancedMatches m p.1 = true then (p.1, (p.2.1, p.2.2.1, "hexagon"))
    else p)

/-- The Phase-2 loop over all mixed base ids. -/
def promoteMixed (mixed : List String)
    (ns : List (String × (String × String × String))) :
    List (String × (String × String × String)) :=
  mixed.foldl (fun acc m => promoteOne m acc) ns

/-- `_update_comprehensive_tooltips`: every node's tooltip is regenerated
from the metadata table, keyed by the node id as written. -/
def updateComprehensiveTooltips (env : GraphEnv) (meta : List (String × NodeMeta))
    (ns : List (String × (String × String × String))) :
    List (String × (String × String × String)) :=
  ns.map (fun p => (p.1, (p.2.1, getComprehensiveTooltip env meta p.1, p.2.2.2)))

/-- The outcome of `build_graph` on a fresh `NetworkGraph`: the final
node table, the deduplicated edge list, both metadata tables, and the
`acl_nodes` / `grant_nodes` tracking sets (as membership lists). -/
structure BuildResult : Type where
  allNodes : List (String × (String × String × String))
  edges : List (String × String)
  nodeMeta : List (String × NodeMeta)
  edgeMeta : List ((String × String) × EdgeMeta)
  aclSeen : List String
  grantSeen : List String

/-- `build_graph`: ACL batch, grant batch, mixed-node intersection and
hexagon promotion, comprehensive tooltip regeneration, then the batch
emission of nodes and deduplicated edges. -/
def buildGraph (env : GraphEnv) (acls : List Acl) (grants : List Grant) : BuildResult :=
  let aclRes := processAclsFrom env 0 acls ⟨[], [], []⟩
  let grantRes := processGrantsFrom env 0 grants aclRes.1
  let aclSeen := aclRes.2.2
  let grantSeen := grantRes.2.2
  let mixed := aclSeen.dedup.filter (fun nid => decide (nid ∈ grantSeen))
  let promoted := promoteMixed mixed grantRes.1.allNodes
  let finalNodes := updateComprehensiveTooltips env grantRes.1.nodeMeta promoted
  { allNodes := finalNodes,
    edges := (aclRes.2.1 ++ grantRes.2.1).dedup,
    nodeMeta := grantRes.1.nodeMeta,
    edgeMeta := grantRes.1.edgeMeta,
    aclSeen := aclSeen,
    grantSeen := grantSeen }

/-! ### Pipeline glue and claim-side predicates -/
/-- String elements of a parsed JSON list (conversion glue between the
validator's view and the graph builder's typed rules). -/
def stringsOfJVal : JVal → List String
  | .arr xs => xs.filterMap (fun v => match v with | .str s => some s | _ => none)
  | _ => []

/-- Typed view of a parsed ACL rule. -/
def aclOfJ (acl : List (String × JVal)) : Acl :=
  { action := match tlookup acl "action" with | some (.str s) => some s | _ => none,
    src := stringsOfJVal ((tlookup acl "src").getD .null),
    dst := stringsOfJVal ((tlookup acl "dst").getD .null) }

/-- Typed view of a parsed grant rule. -/
def grantOfJ (g : List (String × JVal)) : Grant :=
  { src := stringsOfJVal ((tlookup g "src").getD .null),
    dst := stringsOfJVal ((tlookup g "dst").getD .null),
    ip := (tlookup g "ip").map stringsOfJVal,
    via := (tlookup g "via").map stringsOfJVal,
    srcPosture := (tlookup g "srcPosture").map stringsOfJVal,
    dstPosture := (tlookup g "dstPosture").map stringsOfJVal,
    app :=
      match tlookup g "app" with
      | some (.str s) => some (.str s)
      | some (.arr xs) => some (.arr (stringsOfJVal (.arr xs)))
      | some (.obj fs) => some (.obj (fs.map Prod.fst))
      | _ => none }

/-- Graph environment extracted from a parsed policy. -/
def envOfPolicy (p : ParsedPolicy) : GraphEnv :=
  { hosts := p.hosts.filterMap (fun kv =>
      match kv.2 with | .str s => some (kv.1, s) | _ => none),
    groups := p.groups.map (fun kv => (kv.1, stringsOfJVal kv.2)) }

/-- The `main` flow: structural validation gates graph construction; a
validation error propagates and no graph is built. -/
def runPipeline (p : ParsedPolicy) : Except String BuildResult :=
  match validatePolicyStructure p with
  | .error e => .error e
  | .ok _ => .ok (buildGraph (envOfPolicy p) (p.acls.map aclOfJ) (p.grants.map grantOfJ))

/-- A node id referenced by some ACL rule (src or dst). -/
def RefAcl (acls : List Acl) (x : String) : Prop :=
  ∃ r ∈ acls, x ∈ r.src ∨ x ∈ r.dst

/-- A node id referenced by some grant rule (src or dst, as written in
the rule). -/
def RefGrant (grants : List Grant) (x : String) : Prop :=
  ∃ g ∈ grants, x ∈ g.src ∨ x ∈ g.dst

/-- An identifier free of the enhanced-id separator `" ["`. -/
def cleanId (s : String) : Prop := ¬ ([' ', '['] <:+: s.data)

/-- All rule identifiers are bracket-free, so that enhanced ids arise
only from grant ip enhancement. -/
def CleanRules (acls : List Acl) (grants : List Grant) : Prop :=
  (∀ r ∈ acls, (∀ x ∈ r.src, cleanId x) ∧ ∀ x ∈ r.dst, cleanId x) ∧
  (∀ g ∈ grants, (∀ x ∈ g.src, cleanId x) ∧ ∀ x ∈ g.dst, cleanId x)

/-- Ports of the leading maximal run of `":"`-specs with protocol `p`:
returns the collected ports and the remaining specs (claim-side helper
for the protocol-consolidation transform). -/
def takePorts (p : String) : List String → List String × List String
  | [] => ([], [])
  | s :: rest =>
    match splitOnce s ':' with
    | some (q, port) =>
      if q = p then
        let t := takePorts p rest
        (port :: t.1, t.2)
      else ([], s :: rest)
    | none => ([], s :: rest)

/-- Claim-side protocol grouping: each maximal consecutive run of specs
sharing a protocol prefix merges its ports into one
`"<protocol>:<port1,port2,...>"` token; a bare spec stands alone and
closes the current run. -/
def groupSpecs : List String → List String
  | [] => []
  | s :: rest =>
    match splitOnce s ':' with
    | none => s :: groupSpecs rest
    | some (p, port) =>
      let t := takePorts p rest
      (p ++ ":" ++ String.intercalate "," (port :: t.1)) :: groupSpecs t.2
termination_by l => l.length
decreasing_by
  · simp only [List.length_cons]
    omega
  · have hlen : ∀ l : List String, (takePorts p l).2.length ≤ l.length := by
      intro l
      induction l with
      | nil => simp [takePorts]
      | cons s2 rest2 ih =>
        cases hs : splitOnce s2 ':' with
        | none => simp [takePorts, hs]
        | some qp =>
          rcases qp with ⟨q, port2⟩
          by_cases hq : q = p
          · simp only [takePorts, hs, if_pos hq]
            simp only [List.length_cons]
            omega
          · simp only [takePorts, hs, if_neg hq]
            simp
    have := hlen rest
    simp only [List.length_cons]
    omega

/-- A spec whose protocol prefix (before the first colon, when a colon is
present) is nonempty; true for every bare spec. -/
def specProtoOk (s : String) : Bool :=
  match splitOnce s ':' with
  | some pq => pq.1 ≠ ""
  | none => true

/-- Flush-and-return tail of `consolidateIpSpecs` over a fold state. -/
def consolidateFinish (st : List String × Option String × List String) : List String :=
  if protoTruthy st.2.1 = true ∧ st.2.2 ≠ [] then st.1 ++ [flushTok st.2.1 st.2.2]
  else st.1

/-! #### Metadata extension machinery -/
/-- Later processing only appends to a node's rule-reference lists. -/
def MetaExt (t t2 : List (String × NodeMeta)) : Prop :=
  ∀ k m, tlookup t k = some m → ∃ m2, tlookup t2 k = some m2 ∧
    m.srcRules <+: m2.srcRules ∧ m.dstRules <+: m2.dstRules

/-! ## Theorems -/

theorem tlookup_append {κ β : Type} [DecidableEq κ] (t t' : List (κ × β)) (q : κ) :
    tlookup (t ++ t') q =
      match tlookup t q with
      | some v => some v
      | none => tlookup t' q := by
  induction t with
  | nil => simp [tlookup]
  | cons p rest ih =>
    by_cases h : p.1 = q <;> simp [tlookup, h, ih]

theorem tlookup_tset_self {κ β : Type} [DecidableEq κ] (t : List (κ × β)) (k : κ) (v : β) :
    tlookup (tset t k v) k = some v := by
  induction t with
  | nil => simp [tset, tlookup]
  | cons p rest ih =>
    by_cases h : p.1 = k
    · simp [tset, h, tlookup]
    · simp [tset, h, tlookup, ih]

theorem tlookup_tset_ne {κ β : Type} [DecidableEq κ] (t : List (κ × β)) (k q : κ) (v : β)
    (h : q ≠ k) : tlookup (tset t k v) q = tlookup t q := by
  induction t with
  | nil => simp [tset, tlookup, Ne.symm h]
  | cons p rest ih =>
    rcases p with ⟨a, w⟩
    by_cases hk : a = k
    · subst hk
      simp [tset, tlookup, Ne.symm h]
    · by_cases hq : a = q <;> simp [tset, hk, tlookup, hq, ih, h]

theorem tmodify_cons {κ β : Type} [DecidableEq κ] (a : κ) (w : β) (rest : List (κ × β))
    (q : κ) (f : β → β) :
    tmodify ((a, w) :: rest) q f =
      (if a = q then (a, f w) else (a, w)) :: tmodify rest q f := by
  by_cases h : a = q <;> simp [tmodify, h]

theorem tlookup_tmodify {κ β : Type} [DecidableEq κ] (t : List (κ × β)) (q k : κ)
    (f : β → β) :
    tlookup (tmodify t q f) k =
      if k = q then (tlookup t k).map f else tlookup t k := by
  induction t with
  | nil =>
    simp only [tmodify, List.map_nil, tlookup]
    split <;> rfl
  | cons p rest ih =>
    rcases p with ⟨a, w⟩
    rw [tmodify_cons]
    by_cases hq : a = q
    · subst hq
      rw [if_pos rfl]
      by_cases hk : a = k
      · subst hk
        simp [tlookup]
      · simp [tlookup, hk, Ne.symm hk, ih]
    · rw [if_neg hq]
      by_cases hk : a = k
      · subst hk
        simp [tlookup, hq]
      · simp [tlookup, hk, ih]

/-! ### Helper lemmas about the string and integer primitives -/
theorem breakAt_eq (c : Char) :
    ∀ (l : List Char) (p q : List Char), breakAt c l = some (p, q) →
      l = p ++ c :: q ∧ c ∉ p := by
  intro l
  induction l with
  | nil => intro p q h; simp [breakAt] at h
  | cons x xs ih =>
    intro p q h
    by_cases hx : x = c
    · subst hx
      simp [breakAt] at h
      obtain ⟨hp, hq⟩ := h
      subst hp; subst hq
      simp
    · simp only [breakAt, if_neg hx] at h
      cases hb : breakAt c xs with
      | none => rw [hb] at h; cases h
      | some pq =>
        rcases pq with ⟨a, b⟩
        rw [hb] at h
        simp only [Option.map_some', Option.some.injEq, Prod.mk.injEq] at h
        obtain ⟨hp, hq⟩ := h
        obtain ⟨h1, h2⟩ := ih a b hb
        subst hq
        constructor
        · rw [← hp]; simp [h1]
        · rw [← hp]
          simp only [List.mem_cons, not_or]
          exact ⟨fun hc => hx hc.symm, h2⟩

theorem breakAt_none (c : Char) :
    ∀ (l : List Char), breakAt c l = none → c ∉ l := by
  intro l
  induction l with
  | nil => intro _; simp
  | cons x xs ih =>
    intro h
    by_cases hx : x = c
    · subst hx; simp [breakAt] at h
    · simp only [breakAt, if_neg hx] at h
      cases hb : breakAt c xs with
      | none =>
        simp only [List.mem_cons, not_or]
        exact ⟨fun hc => hx hc.symm, ih hb⟩
      | some pq => rw [hb] at h; cases h

theorem splitOnce_eq {s : String} {c : Char} {a b : String}
    (h : splitOnce s c = some (a, b)) :
    s.data = a.data ++ c :: b.data ∧ c ∉ a.data := by
  unfold splitOnce at h
  cases hb : breakAt c s.data with
  | none => rw [hb] at h; simp at h
  | some pq =>
    rw [hb] at h
    simp at h
    obtain ⟨h1, h2⟩ := h
    obtain ⟨he, hn⟩ := breakAt_eq c s.data pq.1 pq.2 hb
    subst h1; subst h2
    exact ⟨he, hn⟩

theorem splitOnce_none {s : String} {c : Char} (h : splitOnce s c = none) :
    c ∉ s.data := by
  unfold splitOnce at h
  cases hb : breakAt c s.data with
  | none => exact breakAt_none c s.data hb
  | some pq => rw [hb] at h; simp at h

theorem mem_dropWhile_of_mem {p : Char → Bool} :
    ∀ {l : List Char} {c : Char}, c ∈ l → p c = false → c ∈ l.dropWhile p := by
  intro l
  induction l with
  | nil => intro c hc; simp at hc
  | cons x xs ih =>
    intro c hc hp
    by_cases hx : p x = true
    · rw [List.dropWhile_cons_of_pos hx]
      rcases List.mem_cons.mp hc with h | h
      · subst h; rw [hp] at hx; cases hx
      · exact ih h hp
    · rw [List.dropWhile_cons_of_neg hx]
      exact hc

theorem digitsGo_chars_aux :
    ∀ (N : Nat) (l : List Char), l.length ≤ N → ∀ (acc n : Nat),
      digitsGo acc l = some n → ∀ c ∈ l, c.isDigit = true ∨ c = '_' := by
  intro N
  induction N with
  | zero =>
    intro l hl acc n h c hc
    have : l = [] := List.length_eq_zero.mp (Nat.le_zero.mp hl)
    subst this; simp at hc
  | succ N ih =>
    intro l hl acc n h c hc
    cases l with
    | nil => simp at hc
    | cons x rest =>
      by_cases hx : x = '_'
      · subst hx
        cases rest with
        | nil => simp [digitsGo] at h
        | cons c2 rest2 =>
          rw [digitsGo.eq_def] at h
          simp only [if_pos rfl] at h
          by_cases hd : c2.isDigit = true
          · rw [if_pos hd] at h
            rcases List.mem_cons.mp hc with h1 | h1
            · right; exact h1
            · rcases List.mem_cons.mp h1 with h2 | h2
              · left; subst h2; exact hd
              · refine ih rest2 ?_ _ _ h c h2
                simp at hl
                omega
          · rw [if_neg hd] at h; cases h
      · rw [digitsGo.eq_def] at h
        simp only [if_neg hx] at h
        by_cases hd : x.isDigit = true
        · rw [if_pos hd] at h
          rcases List.mem_cons.mp hc with h1 | h1
          · left; subst h1; exact hd
          · refine ih rest ?_ _ _ h c h1
            simp at hl
            omega
        · rw [if_neg hd] at h; cases h

theorem digitsVal?_chars {l : List Char} {n : Nat} (h : digitsVal? l = some n) :
    ∀ c ∈ l, c.isDigit = true ∨ c = '_' := by
  cases l with
  | nil => simp [digitsVal?] at h
  | cons x xs =>
    intro c hc
    simp only [digitsVal?] at h
    by_cases hx : x.isDigit = true
    · rw [if_pos hx] at h
      rcases List.mem_cons.mp hc with h1 | h1
      · left; subst h1; exact hx
      · exact digitsGo_chars_aux xs.length xs le_rfl _ _ h c h1
    · rw [if_neg hx] at h; cases h

/-- When a dash occurs in the string, Python `int` can only have read it
as a leading minus sign, so a successful parse is nonpositive. -/
theorem pyInt?_nonpos_of_dash {s : String} {p : Int}
    (hdash : '-' ∈ s.data) (h : pyInt? s = some p) : p ≤ 0 := by
  unfold pyInt? at h
  have hmem : '-' ∈ pyStrip s := by
    unfold pyStrip
    rw [List.mem_reverse]
    apply mem_dropWhile_of_mem
    · rw [List.mem_reverse]
      exact mem_dropWhile_of_mem hdash (by decide)
    · decide
  generalize hg : pyStrip s = core at h hmem
  cases core with
  | nil => cases hmem
  | cons x rest =>
    rw [pySign.eq_def] at h
    by_cases hplus : x = '+'
    · subst hplus
      simp only [if_pos rfl] at h
      cases hv : digitsVal? rest with
      | none => rw [hv] at h; cases h
      | some m =>
        have hr : '-' ∈ rest := by
          rcases List.mem_cons.mp hmem with h1 | h1
          · cases h1
          · exact h1
        rcases digitsVal?_chars hv '-' hr with h1 | h1 <;> simp at h1
    · by_cases hminus : x = '-'
      · subst hminus
        simp only [if_neg hplus, if_pos rfl] at h
        cases hv : digitsVal? rest with
        | none => rw [hv] at h; cases h
        | some m =>
          rw [hv] at h
          simp at h
          omega
      · simp only [if_neg hplus, if_neg hminus] at h
        cases hv : digitsVal? (x :: rest) with
        | none => rw [hv] at h; cases h
        | some m =>
          rcases digitsVal?_chars hv '-' hmem with h1 | h1 <;> simp at h1

namespace PolicyValidator

theorem not_validPortInt_of_split {ps : String} {a b : String}
    (hsp : splitOnce ps '-' = some (a, b)) : ¬ ValidPortInt ps := by
  rintro ⟨p, hp, h1, _⟩
  have hdash : '-' ∈ ps.data := by
    obtain ⟨he, _⟩ := splitOnce_eq hsp
    rw [he]; simp
  have := pyInt?_nonpos_of_dash hdash hp
  unfold MIN_PORT at h1
  omega

theorem validPortRange_iff_of_split {ps : String} {a b : String}
    (hsp : splitOnce ps '-' = some (a, b)) :
    ValidPortRange ps ↔
      ∃ pa pb, pyInt? a = some pa ∧ pyInt? b = some pb ∧
        MIN_PORT ≤ pa ∧ pa ≤ MAX_PORT ∧ MIN_PORT ≤ pb ∧ pb ≤ MAX_PORT ∧ pa ≤ pb := by
  constructor
  · rintro ⟨a', b', pa, pb, hsp', h⟩
    rw [hsp] at hsp'
    have hh := Option.some.inj hsp'
    have ha : a = a' := congrArg Prod.fst hh
    have hb : b = b' := congrArg Prod.snd hh
    subst ha; subst hb
    exact ⟨pa, pb, h⟩
  · rintro ⟨pa, pb, h⟩
    exact ⟨a, b, pa, pb, hsp, h⟩

theorem not_validPortRange_of_none {ps : String}
    (hsp : splitOnce ps '-' = none) : ¬ ValidPortRange ps := by
  rintro ⟨a, b, pa, pb, hsp', _⟩
  rw [hsp] at hsp'
  cases hsp'

theorem validatePortSpecification_ok_iff (ps full : String) (n : Nat) :
    validatePortSpecification ps n full = .ok () ↔
      ValidPortInt ps ∨ ValidPortRange ps := by
  unfold validatePortSpecification
  split
  next a b hsp =>
    split
    next hpa =>
      constructor
      · intro h; simp at h
      · rintro (hi | hr)
        · exact absurd hi (not_validPortInt_of_split hsp)
        · rw [validPortRange_iff_of_split hsp] at hr
          obtain ⟨pa, pb, hpa2, _⟩ := hr
          rw [hpa] at hpa2; cases hpa2
    next s hpa =>
      split
      next hpb =>
        constructor
        · intro h; simp at h
        · rintro (hi | hr)
          · exact absurd hi (not_validPortInt_of_split hsp)
          · rw [validPortRange_iff_of_split hsp] at hr
            obtain ⟨pa2, pb2, _, hpb2, _⟩ := hr
            rw [hpb] at hpb2; cases hpb2
      next e hpb =>
        by_cases h1 : s < MIN_PORT ∨ s > MAX_PORT
        · rw [if_pos h1]
          constructor
          · intro h; simp at h
          · rintro (hi | hr)
            · exact absurd hi (not_validPortInt_of_split hsp)
            · rw [validPortRange_iff_of_split hsp] at hr
              obtain ⟨pa2, pb2, hpa2, hpb2, hh⟩ := hr
              rw [hpa] at hpa2; injection hpa2 with he; subst he
              rcases h1 with h | h <;> omega
        · rw [if_neg h1]
          by_cases h2 : e < MIN_PORT ∨ e > MAX_PORT
          · rw [if_pos h2]
            constructor
            · intro h; simp at h
            · rintro (hi | hr)
              · exact absurd hi (not_validPortInt_of_split hsp)
              · rw [validPortRange_iff_of_split hsp] at hr
                obtain ⟨pa2, pb2, hpa2, hpb2, hh⟩ := hr
                rw [hpb] at hpb2; injection hpb2 with he2; subst he2
                rcases h2 with h | h <;> omega
          · rw [if_neg h2]
            by_cases h3 : s > e
            · rw [if_pos h3]
              constructor
              · intro h; simp at h
              · rintro (hi | hr)
                · exact absurd hi (not_validPortInt_of_split hsp)
                · rw [validPortRange_iff_of_split hsp] at hr
                  obtain ⟨pa2, pb2, hpa2, hpb2, hh⟩ := hr
                  rw [hpa] at hpa2; injection hpa2 with hea; subst hea
                  rw [hpb] at hpb2; injection hpb2 with heb; subst heb
                  omega
            · rw [if_neg h3]
              constructor
              · intro _
                right
                rw [validPortRange_iff_of_split hsp]
                exact ⟨s, e, hpa, hpb, by omega, by omega, by omega, by omega, by omega⟩
              · intro _; rfl
  next hsp =>
    split
    next p hp =>
      by_cases hrange : p < MIN_PORT ∨ p > MAX_PORT
      · rw [if_pos hrange]
        constructor
        · intro h; simp at h
        · rintro (⟨q, hq, hq1, hq2⟩ | hr)
          · rw [hp] at hq
            injection hq with he; subst he
            rcases hrange with h | h <;> omega
          · exact absurd hr (not_validPortRange_of_none hsp)
      · rw [if_neg hrange]
        constructor
        · intro _
          left
          exact ⟨p, hp, by omega, by omega⟩
        · intro _; rfl
    next hp =>
      constructor
      · intro h; simp at h
      · rintro (⟨q, hq, _⟩ | hr)
        · rw [hp] at hq; cases hq
        · exact absurd hr (not_validPortRange_of_none hsp)

/-! ### Message-shape helpers -/
theorem strContains_shape3 (P C s B : String) :
    strContains (P ++ (C ++ s ++ B)) s = true := by
  simp only [strContains, decide_eq_true_eq]
  refine ⟨P.data ++ C.data, B.data, ?_⟩
  simp

theorem strContains_shape4 (P a s b1 b2 : String) :
    strContains (P ++ (a ++ s ++ b1 ++ b2)) s = true := by
  simp only [strContains, decide_eq_true_eq]
  refine ⟨P.data ++ a.data, b1.data ++ b2.data, ?_⟩
  simp

theorem strContains_shape5 (P a s b1 b2 b3 : String) :
    strContains (P ++ (a ++ s ++ b1 ++ b2 ++ b3)) s = true := by
  simp only [strContains, decide_eq_true_eq]
  refine ⟨P.data ++ a.data, b1.data ++ b2.data ++ b3.data, ?_⟩
  simp

theorem grantMsg_startsWith (n : Nat) (rest : String) :
    strStartsWith (grantMsg n rest) ("Grant " ++ toString n ++ ":") = true := by
  simp only [strStartsWith, decide_eq_true_eq, grantMsg]
  refine ⟨' ' :: rest.data, ?_⟩
  simp

theorem rangeCatch_startsWith (n : Nat) (full inner : String)
    (h : strStartsWith inner ("Grant " ++ toString n ++ ":") = true) :
    strStartsWith (rangeCatch n full inner) ("Grant " ++ toString n ++ ":") = true := by
  unfold rangeCatch
  split
  · exact grantMsg_startsWith n _
  · exact h

theorem rangeCatch_contains (n : Nat) (full inner : String)
    (h : strContains inner full = true) :
    strContains (rangeCatch n full inner) full = true := by
  unfold rangeCatch
  split
  · exact strContains_shape3 _ "Invalid port range format in '" full "'"
  · exact h

theorem validatePortSpecification_error (ps full : String) (n : Nat) (msg : String)
    (h : validatePortSpecification ps n full = .error msg) :
    strStartsWith msg ("Grant " ++ toString n ++ ":") = true ∧
      strContains msg full = true := by
  unfold validatePortSpecification at h
  split at h
  next a b hsp =>
    split at h
    next hpa =>
      injection h with he
      subst he
      exact ⟨grantMsg_startsWith n _,
        strContains_shape3 _ "Invalid port range format in '" full "'"⟩
    next s hpa =>
      split at h
      next hpb =>
        injection h with he
        subst he
        exact ⟨grantMsg_startsWith n _,
          strContains_shape3 _ "Invalid port range format in '" full "'"⟩
      next e hpb =>
        split at h
        · injection h with he
          subst he
          refine ⟨rangeCatch_startsWith n full _ (grantMsg_startsWith n _), ?_⟩
          exact rangeCatch_contains n full _
            (strContains_shape3 _
              ("Start port " ++ toString s ++ " out of valid range (1-65535) in '") full "'")
        · split at h
          · injection h with he
            subst he
            refine ⟨rangeCatch_startsWith n full _ (grantMsg_startsWith n _), ?_⟩
            exact rangeCatch_contains n full _
              (strContains_shape3 _
                ("End port " ++ toString e ++ " out of valid range (1-65535) in '") full "'")
          · split at h
            · injection h with he
              subst he
              refine ⟨rangeCatch_startsWith n full _ (grantMsg_startsWith n _), ?_⟩
              exact rangeCatch_contains n full _
                (strContains_shape3 _
                  ("Invalid port range " ++ toString s ++ "-" ++ toString e ++ " in '") full "'")
            · cases h
  next hsp =>
    split at h
    next p hp =>
      split at h
      · injection h with he
        subst he
        exact ⟨grantMsg_startsWith n _,
          strContains_shape3 _
            ("Port " ++ toString p ++ " out of valid range (1-65535) in '") full "'"⟩
      · cases h
    next hp =>
      injection h with he
      subst he
      exact ⟨grantMsg_startsWith n _,
        strContains_shape3 _ "Invalid port format in '" full "'"⟩

theorem protocols_not_portlike : ∀ s ∈ VALID_PROTOCOLS, isPortOrRange s = false := by
  decide

theorem not_VPI_of_portOrRange_false {spec : String}
    (h : isPortOrRange spec = false) : ¬ ValidPortInt spec := by
  rintro ⟨p, hp, h1, _⟩
  unfold isPortOrRange at h
  split at h
  next a b hsp =>
    have hdash : '-' ∈ spec.data := by
      obtain ⟨he, _⟩ := splitOnce_eq hsp
      rw [he]; simp
    have := pyInt?_nonpos_of_dash hdash hp
    unfold MIN_PORT at h1
    omega
  next hsp =>
    rw [hp] at h
    cases h

theorem not_VPR_of_portOrRange_false {spec : String}
    (h : isPortOrRange spec = false) : ¬ ValidPortRange spec := by
  rintro ⟨a, b, pa, pb, hsp, hpa, hpb, _⟩
  have h2 : isPortOrRange spec = true := by
    unfold isPortOrRange
    rw [hsp]
    simp [hpa, hpb]
  rw [h] at h2
  cases h2

theorem validateIpSpec_ok_iff (spec : String) (n : Nat) :
    validateIpSpec spec n = .ok () ↔ AllowedIpSpec spec := by
  unfold validateIpSpec
  by_cases hstar : spec = "*"
  · rw [if_pos hstar]
    constructor
    · intro _; exact Or.inl hstar
    · intro _; rfl
  · rw [if_neg hstar]
    split
    next protocol portSpec hc =>
      by_cases hpr : protocol ∈ VALID_PROTOCOLS
      · rw [if_pos hpr]
        rw [validatePortSpecification_ok_iff]
        constructor
        · intro hok
          exact Or.inr (Or.inl ⟨protocol, portSpec, hc, hpr, hok⟩)
        · rintro (h | ⟨pr, ps2, hc2, hpr2, hval⟩ | ⟨hnone, _⟩)
          · exact absurd h hstar
          · rw [hc] at hc2
            injection hc2 with hh
            have h1 : protocol = pr := congrArg Prod.fst hh
            have h2 : portSpec = ps2 := congrArg Prod.snd hh
            subst h1; subst h2
            exact hval
          · rw [hc] at hnone; cases hnone
      · rw [if_neg hpr]
        constructor
        · intro h; simp at h
        · rintro (h | ⟨pr, ps2, hc2, hpr2, hval⟩ | ⟨hnone, _⟩)
          · exact absurd h hstar
          · rw [hc] at hc2
            injection hc2 with hh
            have h1 : protocol = pr := congrArg Prod.fst hh
            subst h1
            exact absurd hpr2 hpr
          · rw [hc] at hnone; cases hnone
    next hc =>
      by_cases hpor : isPortOrRange spec = true
      · rw [if_pos hpor]
        rw [validatePortSpecification_ok_iff]
        constructor
        · rintro (h | h)
          · exact Or.inr (Or.inr ⟨hc, Or.inl h⟩)
          · exact Or.inr (Or.inr ⟨hc, Or.inr (Or.inl h)⟩)
        · rintro (h | ⟨pr, ps2, hc2, _⟩ | ⟨hnone, (h | h | h)⟩)
          · exact absurd h hstar
          · rw [hc] at hc2; cases hc2
          · exact Or.inl h
          · exact Or.inr h
          · have hf := protocols_not_portlike spec h
            rw [hpor] at hf; cases hf
      · have hporf : isPortOrRange spec = false := by
          cases hx : isPortOrRange spec
          · rfl
          · exact absurd hx hpor
        rw [if_neg hpor]
        by_cases hprot : spec ∈ VALID_PROTOCOLS
        · rw [if_pos hprot]
          constructor
          · intro _
            exact Or.inr (Or.inr ⟨hc, Or.inr (Or.inr hprot)⟩)
          · intro _; rfl
        · rw [if_neg hprot]
          constructor
          · intro h; simp at h
          · rintro (h | ⟨pr, ps2, hc2, _⟩ | ⟨hnone, (h | h | h)⟩)
            · exact absurd h hstar
            · rw [hc] at hc2; cases hc2
            · exact absurd h (not_VPI_of_portOrRange_false hporf)
            · exact absurd h (not_VPR_of_portOrRange_false hporf)
            · exact absurd h hprot

theorem validateIpSpec_error (spec : String) (n : Nat) (msg : String)
    (h : validateIpSpec spec n = .error msg) :
    strStartsWith msg ("Grant " ++ toString n ++ ":") = true ∧
      (strContains msg spec = true ∨
        ∃ protocol portSpec, splitOnce spec ':' = some (protocol, portSpec) ∧
          strContains msg protocol = true) := by
  unfold validateIpSpec at h
  split at h
  · simp at h
  · split at h
    next protocol portSpec hc =>
      split at h
      · obtain ⟨h1, h2⟩ := validatePortSpecification_error _ _ _ _ h
        exact ⟨h1, Or.inl h2⟩
      · injection h with he
        subst he
        refine ⟨grantMsg_startsWith n _, Or.inr ⟨protocol, portSpec, hc, ?_⟩⟩
        exact strContains_shape4 _ "Invalid protocol '" protocol "'. Valid protocols: "
          validProtocolsRepr
    next hc =>
      split at h
      · obtain ⟨h1, h2⟩ := validatePortSpecification_error _ _ _ _ h
        exact ⟨h1, Or.inl h2⟩
      · split at h
        · simp at h
        · injection h with he
          subst he
          refine ⟨grantMsg_startsWith n _, Or.inl ?_⟩
          exact strContains_shape5 _ "Invalid specification '" spec
            "'. Must be a port number, port range, protocol name, or protocol:port format. "
            "Valid protocols: " validProtocolsRepr

theorem validateIpSpecifications_ok_iff (specs : List String) (n : Nat) :
    validateIpSpecifications specs n = .ok () ↔ ∀ s ∈ specs, AllowedIpSpec s := by
  induction specs with
  | nil => simp [validateIpSpecifications]
  | cons s rest ih =>
    unfold validateIpSpecifications
    cases he : validateIpSpec s n with
    | error e =>
      constructor
      · intro hh
        simp [Bind.bind, Except.bind] at hh
      · intro hall
        have := (validateIpSpec_ok_iff s n).mpr (hall s (by simp))
        rw [he] at this
        cases this
    | ok u =>
      cases u
      simp only [Bind.bind, Except.bind]
      rw [ih]
      constructor
      · intro hall
        intro x hx
        rcases List.mem_cons.mp hx with h1 | h1
        · subst h1; exact (validateIpSpec_ok_iff x n).mp he
        · exact hall x h1
      · intro hall x hx
        exact hall x (List.mem_cons_of_mem s hx)

end PolicyValidator

/-! ### Claim C9: node color classification -/
/-- C9: `_get_node_color` classifies by the id alone: a `tag:` prefix
gives the tag color first; otherwise an id containing the configured
company domain as a substring anywhere, or prefixed `autogroup:` or
`group:`, gives the group color; every other id gets the host color.  In
particular a host-like id merely containing the domain substring gets the
group color. -/
theorem claim_C9_node_color (domain node : String) :
    (strStartsWith node "tag:" = true → getNodeColorD domain node = "#00cc66") ∧
    (strStartsWith node "tag:" = false →
      (strContains node domain = true ∨ strStartsWith node "autogroup:" = true ∨
        strStartsWith node "group:" = true) →
      getNodeColorD domain node = "#FFFF00") ∧
    (strStartsWith node "tag:" = false → strContains node domain = false →
      strStartsWith node "autogroup:" = false → strStartsWith node "group:" = false →
      getNodeColorD domain node = "#ff6666") ∧
    getNodeColor "myhost.example.com.internal" = "#FFFF00" := by
  refine ⟨?_, ?_, ?_, ?_⟩
  · intro h
    simp [getNodeColorD, h, NODE_COLORS]
  · intro h hg
    rcases hg with hg | hg | hg <;> simp [getNodeColorD, h, hg, NODE_COLORS]
  · intro h1 h2 h3 h4
    simp [getNodeColorD, h1, h2, h3, h4, NODE_COLORS]
  · decide

/-- Witness for C9 at concrete ids of all three classes. -/
theorem claim_C9_witness :
    getNodeColorD "example.com" "tag:web" = "#00cc66" ∧
    getNodeColorD "example.com" "group:admin" = "#FFFF00" ∧
    getNodeColorD "example.com" "server1" = "#ff6666" :=
  ⟨(claim_C9_node_color "example.com" "tag:web").1 (by decide),
   (claim_C9_node_color "example.com" "group:admin").2.1 (by decide)
     (Or.inr (Or.inr (by decide))),
   (claim_C9_node_color "example.com" "server1").2.2.1 (by decide) (by decide)
     (by decide) (by decide)⟩

/-! ### Claim C8: wildcard passthrough -/
/-- C8: when a grant's `ip` field is absent or exactly `["*"]`, the
resolved destination set is the grant's `dst` identifiers verbatim (as a
set), with no bracket suffix; in particular `dst = ["server"]` with
`ip = ["*"]` resolves to exactly `{"server"}`. -/
theorem claim_C8_wildcard_passthrough (g : Grant) :
    (g.ip = none ∨ g.ip = some ["*"] →
      resolveGrantDestinations g = g.dst.dedup ∧
      ∀ d, d ∈ resolveGrantDestinations g ↔ d ∈ g.dst) ∧
    resolveGrantDestinations { src := ["u"], dst := ["server"], ip := some ["*"] } =
      ["server"] := by
  constructor
  · intro h
    have he : resolveGrantDestinations g = g.dst.dedup := by
      rcases h with h | h <;>
        simp [resolveGrantDestinations, resolveNodes, h]
    refine ⟨he, ?_⟩
    intro d
    rw [he]
    exact List.mem_dedup
  · rfl

/-- Witness for C8 at the spec's concrete wildcard grant. -/
theorem claim_C8_witness :
    resolveGrantDestinations { src := ["u"], dst := ["server"], ip := some ["*"] } =
      (["server"] : List String).dedup ∧
    ("server" ∈ resolveGrantDestinations
      { src := ["u"], dst := ["server"], ip := none } ↔
        "server" ∈ (["server"] : List String)) :=
  ⟨(claim_C8_wildcard_passthrough { src := ["u"], dst := ["server"], ip := some ["*"] }).1
      (Or.inr rfl) |>.1,
   (claim_C8_wildcard_passthrough { src := ["u"], dst := ["server"], ip := none }).1
      (Or.inl rfl) |>.2 "server"⟩

/-! ### Claim C1: protocol consolidation -/
theorem consolidateFold (specs : List String)
    (h : ∀ s ∈ specs, specProtoOk s = true) :
    (∀ acc, consolidateFinish (specs.foldl consolidateStep (acc, none, [])) =
      acc ++ groupSpecs specs) ∧
    (∀ acc p ports, p ≠ "" → ports ≠ [] →
      consolidateFinish (specs.foldl consolidateStep (acc, some p, ports)) =
        acc ++ (p ++ ":" ++ String.intercalate "," (ports ++ (takePorts p specs).1)) ::
          groupSpecs (takePorts p specs).2) := by
  induction specs with
  | nil =>
    constructor
    · intro acc
      simp [consolidateFinish, groupSpecs, protoTruthy]
    · intro acc p ports hp hports
      simp [consolidateFinish, protoTruthy, hp, hports, flushTok, takePorts, groupSpecs]
  | cons s rest ih =>
    have hs := h s (by simp)
    have hrest : ∀ x ∈ rest, specProtoOk x = true := fun x hx => h x (by simp [hx])
    obtain ⟨ih1, ih2⟩ := ih hrest
    constructor
    · intro acc
      rw [List.foldl_cons]
      cases hc : splitOnce s ':' with
      | none =>
        have hstep : consolidateStep (acc, none, []) s = (acc ++ [s], none, []) := by
          simp [consolidateStep, hc, protoTruthy]
        rw [hstep, ih1]
        rw [groupSpecs]
        simp [hc]
      | some pq =>
        rcases pq with ⟨p, port⟩
        have hp : p ≠ "" := by
          unfold specProtoOk at hs
          rw [hc] at hs
          simpa using hs
        have hstep : consolidateStep (acc, none, []) s = (acc, some p, [port]) := by
          simp [consolidateStep, hc, protoTruthy]
        rw [hstep, ih2 acc p [port] hp (by simp)]
        rw [groupSpecs]
        simp [hc]
    · intro acc p ports hp hports
      rw [List.foldl_cons]
      cases hc : splitOnce s ':' with
      | none =>
        have hstep : consolidateStep (acc, some p, ports) s =
            (acc ++ [flushTok (some p) ports] ++ [s], none, []) := by
          simp [consolidateStep, hc, protoTruthy, hp, hports]
        rw [hstep, ih1]
        have ht : takePorts p (s :: rest) = ([], s :: rest) := by
          simp [takePorts, hc]
        rw [ht]
        rw [groupSpecs]
        simp [hc, flushTok]
      | some pq =>
        rcases pq with ⟨q, port⟩
        by_cases hqp : q = p
        · subst hqp
          have hstep : consolidateStep (acc, some q, ports) s =
              (acc, some q, ports ++ [port]) := by
            simp [consolidateStep, hc]
          rw [hstep, ih2 acc q (ports ++ [port]) hp (by simp)]
          have ht : takePorts q (s :: rest) =
              (port :: (takePorts q rest).1, (takePorts q rest).2) := by
            simp [takePorts, hc]
          rw [ht]
          simp
        · have hq : q ≠ "" := by
            unfold specProtoOk at hs
            rw [hc] at hs
            simpa using hs
          have hstep : consolidateStep (acc, some p, ports) s =
              (acc ++ [flushTok (some p) ports], some q, [port]) := by
            have hne : some q ≠ some p := by simp [hqp]
            simp [consolidateStep, hc, hne, protoTruthy, hp, hports]
          rw [hstep, ih2 (acc ++ [flushTok (some p) ports]) q [port] hq (by simp)]
          have ht : takePorts p (s :: rest) = ([], s :: rest) := by
            simp [takePorts, hc, hqp]
          rw [ht]
          conv_rhs => rw [groupSpecs]
          simp [hc, flushTok]

theorem consolidate_eq_groupSpecs (specs : List String)
    (h : ∀ s ∈ specs, specProtoOk s = true) :
    consolidateIpSpecs specs = groupSpecs specs := by
  have := (consolidateFold specs h).1 []
  simpa [consolidateIpSpecs, consolidateFinish] using this

/-- C1: for a grant whose `ip` field is present and not exactly `["*"]`
(and whose colon specs carry a nonempty protocol prefix, as every
validated spec does), every destination identifier resolves to exactly
one enhanced id `"<dst> [tok1, tok2, ...]"`, where the tokens group the
ip specs in order: each maximal consecutive run of specs sharing a
protocol prefix and carrying a port merges into one
`"<protocol>:<port1,port2,...>"` token, and a bare spec or a protocol
change closes the run.  In particular `ip = ["tcp:443","tcp:80","udp:53"]`
with `dst = ["server"]` resolves to exactly
`{"server [tcp:443,80, udp:53]"}`. -/
theorem claim_C1_protocol_consolidation :
    (∀ (g : Grant) (specs : List String), g.ip = some specs → specs ≠ ["*"] →
      (∀ s ∈ specs, specProtoOk s = true) →
      resolveGrantDestinations g =
        g.dst.dedup.map (fun d => d ++ " [" ++ joinComma (groupSpecs specs) ++ "]")) ∧
    resolveGrantDestinations
        { src := ["u"], dst := ["server"], ip := some ["tcp:443", "tcp:80", "udp:53"] } =
      ["server [tcp:443,80, udp:53]"] := by
  constructor
  · intro g specs hip hstar hok
    simp only [resolveGrantDestinations, hip]
    rw [if_pos hstar]
    rw [consolidate_eq_groupSpecs specs hok]
    rfl
  · rfl

/-- Witness for C1 at the spec's concrete grant. -/
theorem claim_C1_witness :
    resolveGrantDestinations
        { src := ["u"], dst := ["server"], ip := some ["tcp:443", "tcp:80", "udp:53"] } =
      (["server"] : List String).dedup.map
        (fun d => d ++ " [" ++
          joinComma (groupSpecs ["tcp:443", "tcp:80", "udp:53"]) ++ "]") :=
  claim_C1_protocol_consolidation.1
    { src := ["u"], dst := ["server"], ip := some ["tcp:443", "tcp:80", "udp:53"] }
    ["tcp:443", "tcp:80", "udp:53"] rfl (by decide) (by decide)

/-! ### Claim C7: ip specification validation -/
/-- C7: `PolicyValidator.validate_ip_specifications` accepts an ip entry
iff it is `"*"`, an in-range bare port (as Python `int` reads it), an
ordered in-range port range `"<start>-<end>"`, a whitelisted protocol
name alone, or `"<protocol>:<port-or-range>"` with a whitelisted
protocol; every failure message names the 1-based grant index and the
offending spec (for an invalid protocol, its protocol prefix). -/
theorem claim_C7_ip_spec_validation (spec : String) (n : Nat) :
    (PolicyValidator.validateIpSpec spec n = .ok () ↔ AllowedIpSpec spec) ∧
    (∀ msg, PolicyValidator.validateIpSpec spec n = .error msg →
      strStartsWith msg ("Grant " ++ toString n ++ ":") = true ∧
      (strContains msg spec = true ∨
        ∃ protocol portSpec, splitOnce spec ':' = some (protocol, portSpec) ∧
          strContains msg protocol = true)) ∧
    (∀ specs, PolicyValidator.validateIpSpecifications specs n = .ok () ↔
      ∀ s ∈ specs, AllowedIpSpec s) :=
  ⟨PolicyValidator.validateIpSpec_ok_iff spec n,
   fun msg h => PolicyValidator.validateIpSpec_error spec n msg h,
   fun specs => PolicyValidator.validateIpSpecifications_ok_iff specs n⟩

/-- Witness for C7: a valid spec accepted, an invalid protocol named in
its error, and a whole-list validation. -/
theorem claim_C7_witness :
    AllowedIpSpec "tcp:443" ∧
    strStartsWith ("Grant 3: Invalid protocol 'xyz'. Valid protocols: " ++
        validProtocolsRepr) ("Grant " ++ toString 3 ++ ":") = true ∧
    (∀ s ∈ ["tcp:443", "8000-8999", "udp", "*"], AllowedIpSpec s) :=
  ⟨(claim_C7_ip_spec_validation "tcp:443" 1).1.mp rfl,
   ((claim_C7_ip_spec_validation "xyz:80" 3).2.1
      ("Grant 3: Invalid protocol 'xyz'. Valid protocols: " ++ validProtocolsRepr)
      rfl).1,
   ((claim_C7_ip_spec_validation "x" 1).2.2
      ["tcp:443", "8000-8999", "udp", "*"]).mp rfl⟩

/-! ### Claim C5: the app field and validation (code bug) -/
/-- C5 (code bug): the specification says a grant's `app` field may be a
string, a list, or a mapping, with normalization downstream — and the
graph builder indeed normalizes all three forms (`appsOfGrant`), but
`PolicyParser._validate_policy_structure` includes `app` in the fields
required to be lists, so a string-valued or mapping-valued `app` is
rejected with a structural error, contradicting both the spec and the
builder's own explicit dict/str handling. -/
theorem claim_C5_app_validation_bug :
    validatePolicyStructure
        ⟨[], [], [[("src", .arr [.str "u"]), ("dst", .arr [.str "s"]),
          ("app", .str "example.com/cap")]], []⟩ =
      .error "Grant 1 'app' must be a list when specified" ∧
    validatePolicyStructure
        ⟨[], [], [[("src", .arr [.str "u"]), ("dst", .arr [.str "s"]),
          ("app", .obj [("example.com/cap", .arr [])])]], []⟩ =
      .error "Grant 1 'app' must be a list when specified" ∧
    appsOfGrant { src := ["u"], dst := ["s"], app := some (.str "example.com/cap") } =
      ["example.com/cap"] ∧
    appsOfGrant { src := ["u"], dst := ["s"], app := some (.obj ["example.com/cap"]) } =
      ["example.com/cap"] ∧
    (∀ g : List (String × JVal), ∀ v, tlookup g "ip" = some v → v.isList = false →
      tlookup g "src" = none ∨
        ∃ e, PolicyParser.validateGrant 0 g = .error e) := by
  refine ⟨rfl, rfl, rfl, rfl, ?_⟩
  intro g v hip hv
  cases hsrc : tlookup g "src" with
  | none => exact Or.inl rfl
  | some srcV =>
    right
    cases hdst : tlookup g "dst" with
    | none =>
      refine ⟨"Grant " ++ toString 1 ++ " missing required 'dst' field", ?_⟩
      simp [PolicyParser.validateGrant, hsrc, hdst]
    | some dstV =>
      by_cases hsl : srcV.isList = true
      · by_cases hdl : dstV.isList = true
        · refine ⟨"Grant " ++ toString 1 ++ " 'ip' must be a list when specified", ?_⟩
          simp [PolicyParser.validateGrant, hsrc, hdst, hsl, hdl, hip, hv]
        · refine ⟨"Grant " ++ toString 1 ++ " 'dst' must be a list", ?_⟩
          simp [PolicyParser.validateGrant, hsrc, hdst, hsl, hdl]
      · refine ⟨"Grant " ++ toString 1 ++ " 'src' must be a list", ?_⟩
        simp [PolicyParser.validateGrant, hsrc, hdst, hsl]

/-! ### Claim C6: structural grant validation -/
theorem validateGrant_missing_src (i : Nat) (g : List (String × JVal))
    (h : tlookup g "src" = none) :
    PolicyParser.validateGrant i g =
      .error ("Grant " ++ toString (i + 1) ++ " missing required 'src' field") := by
  simp [PolicyParser.validateGrant, h]

theorem validateGrant_missing_dst (i : Nat) (g : List (String × JVal)) (v : JVal)
    (hs : tlookup g "src" = some v) (h : tlookup g "dst" = none) :
    PolicyParser.validateGrant i g =
      .error ("Grant " ++ toString (i + 1) ++ " missing required 'dst' field") := by
  simp [PolicyParser.validateGrant, hs, h]

theorem validateGrant_src_not_list (i : Nat) (g : List (String × JVal)) (v w : JVal)
    (hs : tlookup g "src" = some v) (hd : tlookup g "dst" = some w)
    (hv : v.isList = false) :
    PolicyParser.validateGrant i g =
      .error ("Grant " ++ toString (i + 1) ++ " 'src' must be a list") := by
  simp [PolicyParser.validateGrant, hs, hd, hv]

theorem validateGrant_dst_not_list (i : Nat) (g : List (String × JVal)) (v w : JVal)
    (hs : tlookup g "src" = some v) (hd : tlookup g "dst" = some w)
    (hv : v.isList = true) (hw : w.isList = false) :
    PolicyParser.validateGrant i g =
      .error ("Grant " ++ toString (i + 1) ++ " 'dst' must be a list") := by
  simp [PolicyParser.validateGrant, hs, hd, hv, hw]

theorem validateGrant_ok_structure (i : Nat) (g : List (String × JVal))
    (h : PolicyParser.validateGrant i g = .ok ()) :
    (∃ v, tlookup g "src" = some v ∧ v.isList = true) ∧
      (∃ w, tlookup g "dst" = some w ∧ w.isList = true) := by
  unfold PolicyParser.validateGrant at h
  cases hs : tlookup g "src" with
  | none => rw [hs] at h; simp at h
  | some v =>
    rw [hs] at h
    cases hd : tlookup g "dst" with
    | none => rw [hd] at h; simp at h
    | some w =>
      rw [hd] at h
      by_cases hv : v.isList = true
      · by_cases hw : w.isList = true
        · exact ⟨⟨v, rfl, hv⟩, ⟨w, rfl, hw⟩⟩
        · simp [hv, hw] at h
      · simp [hv] at h

theorem validateGrantsFrom_ok (grants : List (List (String × JVal))) :
    ∀ (i0 : Nat), PolicyParser.validateGrantsFrom i0 grants = .ok () →
      ∀ (i : Nat) (g : List (String × JVal)), grants[i]? = some g →
        PolicyParser.validateGrant (i0 + i) g = .ok () := by
  induction grants with
  | nil =>
    intro i0 _ i g hg
    simp at hg
  | cons g0 rest ih =>
    intro i0 h i g hg
    unfold PolicyParser.validateGrantsFrom at h
    cases h0 : PolicyParser.validateGrant i0 g0 with
    | error e =>
      rw [h0] at h
      simp [Bind.bind, Except.bind] at h
    | ok u =>
      cases u
      rw [h0] at h
      simp only [Bind.bind, Except.bind] at h
      cases i with
      | zero =>
        simp at hg
        subst hg
        simpa using h0
      | succ j =>
        have hj : rest[j]? = some g := by simpa using hg
        have := ih (i0 + 1) h j g hj
        have harith : i0 + 1 + j = i0 + (j + 1) := by omega
        rw [harith] at this
        exact this

theorem validateGrantsFrom_first_error (grants : List (List (String × JVal))) :
    ∀ (i0 : Nat) (i : Nat) (g : List (String × JVal)) (e : String),
      grants[i]? = some g →
      (∀ (j : Nat) (gj : List (String × JVal)), j < i → grants[j]? = some gj →
        PolicyParser.validateGrant (i0 + j) gj = .ok ()) →
      PolicyParser.validateGrant (i0 + i) g = .error e →
      PolicyParser.validateGrantsFrom i0 grants = .error e := by
  induction grants with
  | nil =>
    intro i0 i g e hg _ _
    simp at hg
  | cons g0 rest ih =>
    intro i0 i g e hg hprev herr
    unfold PolicyParser.validateGrantsFrom
    cases i with
    | zero =>
      have hg0 : g0 = g := by simpa using hg
      subst hg0
      have herr0 : PolicyParser.validateGrant i0 g0 = .error e := by simpa using herr
      rw [herr0]
      rfl
    | succ j =>
      have h0 : PolicyParser.validateGrant i0 g0 = .ok () := by
        simpa using hprev 0 g0 (by omega) (by simp)
      rw [h0]
      simp only [Bind.bind, Except.bind]
      refine ih (i0 + 1) j g e (by simpa using hg) ?_ ?_
      · intro k gk hk hgk
        have := hprev (k + 1) gk (by omega) (by simpa using hgk)
        have harith : i0 + (k + 1) = i0 + 1 + k := by omega
        rw [harith] at this
        exact this
      · have harith : i0 + (j + 1) = i0 + 1 + j := by omega
        rw [harith] at herr
        exact herr

theorem validatePolicyStructure_grants_gate (p : ParsedPolicy)
    (h : validatePolicyStructure p = .ok ()) :
    PolicyParser.validateGrantsFrom 0 p.grants = .ok () := by
  unfold validatePolicyStructure at h
  cases h1 : PolicyParser.validateGroups p.groups with
  | error e => rw [h1] at h; simp [Bind.bind, Except.bind] at h
  | ok u =>
    cases u
    rw [h1] at h
    simp only [Bind.bind, Except.bind] at h
    cases h2 : PolicyParser.validateHosts p.hosts with
    | error e => rw [h2] at h; simp [Except.bind] at h
    | ok u =>
      cases u
      rw [h2] at h
      simp only [Except.bind] at h
      cases h3 : PolicyParser.validateGrantsFrom 0 p.grants with
      | error e => rw [h3] at h; simp [Except.bind] at h
      | ok u => cases u; rfl

/-- C6: the pipeline validator rejects, with a structural error naming
the 1-based grant index and the offending field, any grant missing `src`
or `dst` or whose `src` or `dst` is not list-typed; in particular any
defective grant makes whole-policy validation fail, the first defective
grant's message reaches the caller, and a validation error means graph
construction is never invoked. -/
theorem claim_C6_grant_structure_validation :
    (∀ (i : Nat) (g : List (String × JVal)),
      (tlookup g "src" = none →
        PolicyParser.validateGrant i g =
          .error ("Grant " ++ toString (i + 1) ++ " missing required 'src' field")) ∧
      (∀ v, tlookup g "src" = some v → tlookup g "dst" = none →
        PolicyParser.validateGrant i g =
          .error ("Grant " ++ toString (i + 1) ++ " missing required 'dst' field")) ∧
      (∀ v w, tlookup g "src" = some v → tlookup g "dst" = some w → v.isList = false →
        PolicyParser.validateGrant i g =
          .error ("Grant " ++ toString (i + 1) ++ " 'src' must be a list")) ∧
      (∀ v w, tlookup g "src" = some v → tlookup g "dst" = some w →
        v.isList = true → w.isList = false →
        PolicyParser.validateGrant i g =
          .error ("Grant " ++ toString (i + 1) ++ " 'dst' must be a list"))) ∧
    (∀ (p : ParsedPolicy) (i : Nat) (g : List (String × JVal)),
      p.grants[i]? = some g →
      (tlookup g "src" = none ∨ tlookup g "dst" = none ∨
        (∃ v, tlookup g "src" = some v ∧ v.isList = false) ∨
        (∃ w, tlookup g "dst" = some w ∧ w.isList = false)) →
      ∃ e, validatePolicyStructure p = .error e) ∧
    (∀ (grants : List (List (String × JVal))) (i : Nat) (g : List (String × JVal))
        (e : String),
      grants[i]? = some g →
      (∀ (j : Nat) (gj : List (String × JVal)), j < i → grants[j]? = some gj →
        PolicyParser.validateGrant j gj = .ok ()) →
      PolicyParser.validateGrant i g = .error e →
      PolicyParser.validateGrantsFrom 0 grants = .error e) ∧
    (∀ (p : ParsedPolicy) (e : String), validatePolicyStructure p = .error e →
      runPipeline p = .error e) := by
  refine ⟨?_, ?_, ?_, ?_⟩
  · intro i g
    exact ⟨validateGrant_missing_src i g,
      fun v hs hd => validateGrant_missing_dst i g v hs hd,
      fun v w hs hd hv => validateGrant_src_not_list i g v w hs hd hv,
      fun v w hs hd hv hw => validateGrant_dst_not_list i g v w hs hd hv hw⟩
  · intro p i g hg hdef
    cases hv : validatePolicyStructure p with
    | error e => exact ⟨e, rfl⟩
    | ok u =>
      cases u
      exfalso
      have hgok := validateGrantsFrom_ok p.grants 0 (validatePolicyStructure_grants_gate p hv) i g hg
      rw [Nat.zero_add] at hgok
      obtain ⟨⟨v, hsv, hvl⟩, ⟨w, hdw, hwl⟩⟩ := validateGrant_ok_structure i g hgok
      rcases hdef with h | h | ⟨v2, hv2, hl2⟩ | ⟨w2, hw2, hl2⟩
      · rw [hsv] at h; cases h
      · rw [hdw] at h; cases h
      · rw [hsv] at hv2; injection hv2 with he; subst he; rw [hvl] at hl2; cases hl2
      · rw [hdw] at hw2; injection hw2 with he; subst he; rw [hwl] at hl2; cases hl2
  · intro grants i g e hg hprev herr
    refine validateGrantsFrom_first_error grants 0 i g e hg ?_ ?_
    · intro j gj hj hgj
      rw [Nat.zero_add]
      exact hprev j gj hj hgj
    · rw [Nat.zero_add]
      exact herr
  · intro p e h
    simp [runPipeline, h]

/-- Witness for C6 at the spec's rejection scenario: a single grant
missing `dst` is rejected with a message naming grant 1 and the `dst`
field, and the pipeline never builds a graph. -/
theorem claim_C6_witness :
    PolicyParser.validateGrant 0 [("src", JVal.arr [JVal.str "u"])] =
      .error ("Grant " ++ toString 1 ++ " missing required 'dst' field") ∧
    (∃ e, validatePolicyStructure ⟨[], [], [[("src", JVal.arr [JVal.str "u"])]], []⟩ =
      .error e) ∧
    runPipeline ⟨[], [], [[("src", JVal.arr [JVal.str "u"])]], []⟩ =
      .error "Grant 1 missing required 'dst' field" :=
  ⟨(claim_C6_grant_structure_validation.1 0 [("src", JVal.arr [JVal.str "u"])]).2.1
      (JVal.arr [JVal.str "u"]) rfl rfl,
   claim_C6_grant_structure_validation.2.1
      ⟨[], [], [[("src", JVal.arr [JVal.str "u"])]], []⟩ 0
      [("src", JVal.arr [JVal.str "u"])] rfl (Or.inr (Or.inl rfl)),
   claim_C6_grant_structure_validation.2.2.2
      ⟨[], [], [[("src", JVal.arr [JVal.str "u"])]], []⟩
      "Grant 1 missing required 'dst' field" rfl⟩

/-! ### Claim C10: edge metadata is last-writer-wins -/
theorem edgeFold_dsts (mk : String → String → EdgeMeta) (s : String) (dsts : List String)
    (acc : BState) (e : String × String) :
    tlookup ((dsts.foldl (fun acc2 d =>
        { acc2 with edgeMeta := tset acc2.edgeMeta (s, d) (mk s d) }) acc).edgeMeta) e =
      if e.1 = s ∧ e.2 ∈ dsts then some (mk s e.2) else tlookup acc.edgeMeta e := by
  induction dsts generalizing acc with
  | nil => simp
  | cons d rest ih =>
    rw [List.foldl_cons, ih]
    rcases e with ⟨e1, e2⟩
    by_cases h1 : e1 = s
    · subst h1
      by_cases h2 : e2 ∈ rest
      · simp [h2]
      · by_cases h3 : e2 = d
        · subst h3
          simp [h2, tlookup_tset_self]
        · have hne : (e1, e2) ≠ (e1, d) := by simp [h3]
          simp only [h2, and_false, if_false]
          rw [tlookup_tset_ne _ _ _ _ hne]
          simp [h2, h3]
    · have hne : (e1, e2) ≠ (s, d) := by simp [h1]
      simp only [h1, false_and, if_false]
      rw [tlookup_tset_ne _ _ _ _ hne]

theorem edgeFold_srcs (mk : String → String → EdgeMeta) (srcs dsts : List String)
    (st : BState) (e : String × String) :
    tlookup ((srcs.foldl (fun acc s => dsts.foldl (fun acc2 d =>
        { acc2 with edgeMeta := tset acc2.edgeMeta (s, d) (mk s d) }) acc) st).edgeMeta) e =
      if e.1 ∈ srcs ∧ e.2 ∈ dsts then some (mk e.1 e.2) else tlookup st.edgeMeta e := by
  induction srcs generalizing st with
  | nil => simp
  | cons s rest ih =>
    rw [List.foldl_cons, ih, edgeFold_dsts]
    rcases e with ⟨e1, e2⟩
    by_cases h1 : e1 ∈ rest
    · by_cases h2 : e2 ∈ dsts
      · simp [h1, h2]
      · simp [h1, h2]
    · by_cases hs : e1 = s
      · subst hs
        by_cases h2 : e2 ∈ dsts
        · simp [h1, h2]
        · simp [h1, h2]
      · simp [h1, hs]

theorem foldl_edgeMeta_const (f : BState → String → BState)
    (h : ∀ st x, (f st x).edgeMeta = st.edgeMeta) :
    ∀ (l : List String) (st : BState), (l.foldl f st).edgeMeta = st.edgeMeta := by
  intro l
  induction l with
  | nil => intro st; rfl
  | cons x xs ih =>
    intro st
    rw [List.foldl_cons, ih, h]

theorem aclSrcVisit_edgeMeta (env : GraphEnv) (i : Nat) (st : BState) (x : String) :
    (aclSrcVisit env i st x).edgeMeta = st.edgeMeta := rfl

theorem aclDstVisit_edgeMeta (env : GraphEnv) (i : Nat) (st : BState) (x : String) :
    (aclDstVisit env i st x).edgeMeta = st.edgeMeta := rfl

theorem grantSrcVisit_edgeMeta (env : GraphEnv) (g : Grant) (i : Nat) (st : BState)
    (x : String) : (grantSrcVisit env g i st x).edgeMeta = st.edgeMeta := rfl

theorem grantDstVisit_edgeMeta (env : GraphEnv) (g : Grant) (i : Nat) (st : BState)
    (x : String) : (grantDstVisit env g i st x).edgeMeta = st.edgeMeta := rfl

theorem processAclRule_edgeMeta (env : GraphEnv) (i : Nat) (rule : Acl) (st : BState)
    (e : String × String) :
    tlookup ((processAclRule env i rule st).1.edgeMeta) e =
      if e.1 ∈ rule.src ∧ e.2 ∈ rule.dst then some (aclEdgeMetaOf rule i e.1 e.2)
      else tlookup st.edgeMeta e := by
  unfold processAclRule
  rw [edgeFold_srcs (fun s d => aclEdgeMetaOf rule i s d)]
  rw [foldl_edgeMeta_const _ (aclDstVisit_edgeMeta env i)]
  rw [foldl_edgeMeta_const _ (aclSrcVisit_edgeMeta env i)]
  simp [resolveNodes]

theorem processGrantRule_edgeMeta (env : GraphEnv) (i : Nat) (g : Grant) (st : BState)
    (e : String × String) :
    tlookup ((processGrantRule env i g st).1.edgeMeta) e =
      if e.1 ∈ g.src ∧ e.2 ∈ resolveGrantDestinations g then
        some (grantEdgeMetaOf g i e.1 e.2)
      else tlookup st.edgeMeta e := by
  unfold processGrantRule
  rw [edgeFold_srcs (fun s d => grantEdgeMetaOf g i s d)]
  rw [foldl_edgeMeta_const _ (grantDstVisit_edgeMeta env g i)]
  rw [foldl_edgeMeta_const _ (grantSrcVisit_edgeMeta env g i)]
  simp [resolveNodes]

theorem processAclsFrom_edgeMeta_untouched (env : GraphEnv) :
    ∀ (acls : List Acl) (i0 : Nat) (st : BState) (e : String × String),
      (∀ (j : Nat) (r : Acl), acls[j]? = some r → ¬ (e.1 ∈ r.src ∧ e.2 ∈ r.dst)) →
      tlookup ((processAclsFrom env i0 acls st).1.edgeMeta) e = tlookup st.edgeMeta e := by
  intro acls
  induction acls with
  | nil => intro i0 st e _; rfl
  | cons r rest ih =>
    intro i0 st e hno
    unfold processAclsFrom
    simp only []
    rw [ih (i0 + 1) _ e (fun j rj hj => hno (j + 1) rj (by simpa using hj))]
    rw [processAclRule_edgeMeta]
    rw [if_neg (hno 0 r (by simp))]

theorem processAclsFrom_edgeMeta_last (env : GraphEnv) :
    ∀ (acls : List Acl) (i0 : Nat) (st : BState) (e : String × String) (i : Nat) (r : Acl),
      acls[i]? = some r → e.1 ∈ r.src → e.2 ∈ r.dst →
      (∀ (i2 : Nat) (r2 : Acl), acls[i2]? = some r2 → i < i2 →
        ¬ (e.1 ∈ r2.src ∧ e.2 ∈ r2.dst)) →
      tlookup ((processAclsFrom env i0 acls st).1.edgeMeta) e =
        some (aclEdgeMetaOf r (i0 + i) e.1 e.2) := by
  intro acls
  induction acls with
  | nil => intro i0 st e i r hr; simp at hr
  | cons r0 rest ih =>
    intro i0 st e i r hr hsrc hdst hlater
    unfold processAclsFrom
    simp only []
    cases i with
    | zero =>
      have hr0 : r0 = r := by simpa using hr
      subst hr0
      rw [processAclsFrom_edgeMeta_untouched env rest (i0 + 1) _ e ?_]
      · rw [processAclRule_edgeMeta]
        rw [if_pos ⟨hsrc, hdst⟩]
        rw [Nat.add_zero]
      · intro j rj hj
        exact hlater (j + 1) rj (by simpa using hj) (by omega)
    | succ k =>
      have hk : rest[k]? = some r := by simpa using hr
      have harith : i0 + (k + 1) = i0 + 1 + k := by omega
      rw [harith]
      exact ih (i0 + 1) _ e k r hk hsrc hdst
        (fun i2 r2 h2 hlt => hlater (i2 + 1) r2 (by simpa using h2) (by omega))

theorem processGrantsFrom_edgeMeta_untouched (env : GraphEnv) :
    ∀ (grants : List Grant) (i0 : Nat) (st : BState) (e : String × String),
      (∀ (j : Nat) (g : Grant), grants[j]? = some g →
        ¬ (e.1 ∈ g.src ∧ e.2 ∈ resolveGrantDestinations g)) →
      tlookup ((processGrantsFrom env i0 grants st).1.edgeMeta) e =
        tlookup st.edgeMeta e := by
  intro grants
  induction grants with
  | nil => intro i0 st e _; rfl
  | cons g rest ih =>
    intro i0 st e hno
    unfold processGrantsFrom
    simp only []
    rw [ih (i0 + 1) _ e (fun j gj hj => hno (j + 1) gj (by simpa using hj))]
    rw [processGrantRule_edgeMeta]
    rw [if_neg (hno 0 g (by simp))]

theorem processGrantsFrom_edgeMeta_last (env : GraphEnv) :
    ∀ (grants : List Grant) (i0 : Nat) (st : BState) (e : String × String) (j : Nat)
      (g : Grant),
      grants[j]? = some g → e.1 ∈ g.src → e.2 ∈ resolveGrantDestinations g →
      (∀ (j2 : Nat) (g2 : Grant), grants[j2]? = some g2 → j < j2 →
        ¬ (e.1 ∈ g2.src ∧ e.2 ∈ resolveGrantDestinations g2)) →
      tlookup ((processGrantsFrom env i0 grants st).1.edgeMeta) e =
        some (grantEdgeMetaOf g (i0 + j) e.1 e.2) := by
  intro grants
  induction grants with
  | nil => intro i0 st e j g hg; simp at hg
  | cons g0 rest ih =>
    intro i0 st e j g hg hsrc hdst hlater
    unfold processGrantsFrom
    simp only []
    cases j with
    | zero =>
      have hg0 : g0 = g := by simpa using hg
      subst hg0
      rw [processGrantsFrom_edgeMeta_untouched env rest (i0 + 1) _ e ?_]
      · rw [processGrantRule_edgeMeta]
        rw [if_pos ⟨hsrc, hdst⟩]
        rw [Nat.add_zero]
      · intro k gk hk
        exact hlater (k + 1) gk (by simpa using hk) (by omega)
    | succ k =>
      have hk : rest[k]? = some g := by simpa using hg
      have harith : i0 + (k + 1) = i0 + 1 + k := by omega
      rw [harith]
      exact ih (i0 + 1) _ e k g hk hsrc hdst
        (fun j2 g2 h2 hlt => hlater (j2 + 1) g2 (by simpa using h2) (by omega))

/-- C10 (implicit): the edge-metadata index is last-writer-wins.  If
grant `j` (0-based) produces edge `e` and no later grant does, the final
edge metadata for `e` is grant `j`'s record (rule type "Grant", 1-based
index `j+1`, its protocols/via/posture/apps) — regardless of any ACL
rules, since all ACLs are processed first; if no grant produces `e` and
ACL `i` is the last ACL producing it, the record is that ACL's (rule type
"ACL", index `i+1`, its action). -/
theorem claim_C10_edge_metadata_last_writer (env : GraphEnv) (acls : List Acl)
    (grants : List Grant) (e : String × String) :
    (∀ (j : Nat) (g : Grant), grants[j]? = some g →
      e.1 ∈ g.src → e.2 ∈ resolveGrantDestinations g →
      (∀ (j2 : Nat) (g2 : Grant), grants[j2]? = some g2 → j < j2 →
        ¬ (e.1 ∈ g2.src ∧ e.2 ∈ resolveGrantDestinations g2)) →
      tlookup (buildGraph env acls grants).edgeMeta e =
        some (grantEdgeMetaOf g j e.1 e.2) ∧
      (grantEdgeMetaOf g j e.1 e.2).ruleType = "Grant" ∧
      (grantEdgeMetaOf g j e.1 e.2).ruleIndex = j + 1) ∧
    (∀ (i : Nat) (r : Acl), acls[i]? = some r → e.1 ∈ r.src → e.2 ∈ r.dst →
      (∀ (i2 : Nat) (r2 : Acl), acls[i2]? = some r2 → i < i2 →
        ¬ (e.1 ∈ r2.src ∧ e.2 ∈ r2.dst)) →
      (∀ (j : Nat) (g : Grant), grants[j]? = some g →
        ¬ (e.1 ∈ g.src ∧ e.2 ∈ resolveGrantDestinations g)) →
      tlookup (buildGraph env acls grants).edgeMeta e =
        some (aclEdgeMetaOf r i e.1 e.2) ∧
      (aclEdgeMetaOf r i e.1 e.2).ruleType = "ACL" ∧
      (aclEdgeMetaOf r i e.1 e.2).ruleIndex = i + 1) := by
  constructor
  · intro j g hg hsrc hdst hlater
    refine ⟨?_, rfl, rfl⟩
    show tlookup ((processGrantsFrom env 0 grants
      (processAclsFrom env 0 acls ⟨[], [], []⟩).1).1.edgeMeta) e = _
    have := processGrantsFrom_edgeMeta_last env grants 0
      (processAclsFrom env 0 acls ⟨[], [], []⟩).1 e j g hg hsrc hdst hlater
    rw [Nat.zero_add] at this
    exact this
  · intro i r hr hsrc hdst hlater hnog
    refine ⟨?_, rfl, rfl⟩
    show tlookup ((processGrantsFrom env 0 grants
      (processAclsFrom env 0 acls ⟨[], [], []⟩).1).1.edgeMeta) e = _
    rw [processGrantsFrom_edgeMeta_untouched env grants 0 _ e hnog]
    have := processAclsFrom_edgeMeta_last env acls 0 ⟨[], [], []⟩ e i r hr hsrc hdst hlater
    rw [Nat.zero_add] at this
    exact this

/-- Witness for C10: an ACL and a grant both produce the same edge; the
final metadata is the grant's. -/
theorem claim_C10_witness :
    tlookup (buildGraph { hosts := [], groups := [] }
        [{ action := some "accept", src := ["u"], dst := ["server"] }]
        [{ src := ["u"], dst := ["server"] }]).edgeMeta ("u", "server") =
      some (grantEdgeMetaOf { src := ["u"], dst := ["server"] } 0 "u" "server") ∧
    (grantEdgeMetaOf { src := ["u"], dst := ["server"] } 0 "u" "server").ruleType =
      "Grant" :=
  ⟨((claim_C10_edge_metadata_last_writer { hosts := [], groups := [] }
      [{ action := some "accept", src := ["u"], dst := ["server"] }]
      [{ src := ["u"], dst := ["server"] }] ("u", "server")).1 0
      { src := ["u"], dst := ["server"] } rfl (by decide) (by decide)
      (fun j2 g2 h2 hlt => by
        cases j2 with
        | zero => omega
        | succ k => simp at h2)).1,
   rfl⟩

/-! ### Claim C4: enhanced-node tooltips (code bug) -/
/-- C4 (code bug): the Phase-2 tooltip regeneration
(`_update_comprehensive_tooltips`) looks up `node_metadata` with the full
enhanced node id, but metadata is keyed by stripped base ids, so an
enhanced destination node's final tooltip is the bare id string and
reflects none of the base node's accumulated metadata — although the
overwritten Phase-1 helper `_get_grant_dst_tooltip` explicitly strips the
base id "for metadata lookup", and the claim (and spec) require the base
entry to be used. -/
theorem claim_C4_enhanced_tooltip_bug :
    tlookup (buildGraph { hosts := [], groups := [] } []
        [{ src := ["user"], dst := ["server"], ip := some ["tcp:443"] }]).allNodes
        "server [tcp:443]" =
      some ("#ff6666", "server [tcp:443]", "triangle") ∧
    (tlookup (buildGraph { hosts := [], groups := [] } []
        [{ src := ["user"], dst := ["server"], ip := some ["tcp:443"] }]).nodeMeta
        "server [tcp:443]" = none) ∧
    ((tlookup (buildGraph { hosts := [], groups := [] } []
        [{ src := ["user"], dst := ["server"], ip := some ["tcp:443"] }]).nodeMeta
        "server").map NodeMeta.dstRules = some ["Grant rule 1"]) ∧
    getComprehensiveTooltip { hosts := [], groups := [] }
        (buildGraph { hosts := [], groups := [] } []
          [{ src := ["user"], dst := ["server"], ip := some ["tcp:443"] }]).nodeMeta
        "server" ≠ "server [tcp:443]" := by
  refine ⟨rfl, rfl, rfl, ?_⟩
  decide

/-! ### Claim C3: edge deduplication and rule references -/
/-- C3 fails as stated: an ACL rule whose destination id happens to equal
a grant's enhanced destination shares the edge, but the grant's rule
reference is recorded under the stripped base id, not under the shared
node id, so the shared node's `dst_rules` holds only the ACL reference. -/
theorem claim_C3_counterexample :
    (buildGraph { hosts := [], groups := [] }
        [{ action := some "accept", src := ["u"], dst := ["server [tcp:443]"] }]
        [{ src := ["u"], dst := ["server"], ip := some ["tcp:443"] }]).edges =
      [("u", "server [tcp:443]")] ∧
    ((tlookup (buildGraph { hosts := [], groups := [] }
        [{ action := some "accept", src := ["u"], dst := ["server [tcp:443]"] }]
        [{ src := ["u"], dst := ["server"], ip := some ["tcp:443"] }]).nodeMeta
        "server [tcp:443]").map NodeMeta.dstRules = some ["ACL rule 1"]) ∧
    "Grant rule 1" ∉ (["ACL rule 1"] : List String) := by
  refine ⟨rfl, rfl, ?_⟩
  decide

theorem metaExt_refl (t : List (String × NodeMeta)) : MetaExt t t :=
  fun _ m h => ⟨m, h, List.prefix_refl _, List.prefix_refl _⟩

theorem metaExt_trans {a b c : List (String × NodeMeta)}
    (h1 : MetaExt a b) (h2 : MetaExt b c) : MetaExt a c := by
  intro k m hm
  obtain ⟨m2, hm2, hs2, hd2⟩ := h1 k m hm
  obtain ⟨m3, hm3, hs3, hd3⟩ := h2 k m2 hm2
  exact ⟨m3, hm3, hs2.trans hs3, hd2.trans hd3⟩

theorem metaExt_append (t l : List (String × NodeMeta)) : MetaExt t (t ++ l) := by
  intro k m hm
  refine ⟨m, ?_, List.prefix_refl _, List.prefix_refl _⟩
  rw [tlookup_append, hm]

theorem metaExt_tmodify (t : List (String × NodeMeta)) (q : String) (f : NodeMeta → NodeMeta)
    (hf : ∀ m, m.srcRules <+: (f m).srcRules ∧ m.dstRules <+: (f m).dstRules) :
    MetaExt t (tmodify t q f) := by
  intro k m hm
  rw [tlookup_tmodify]
  by_cases hk : k = q
  · rw [if_pos hk, hm]
    exact ⟨f m, rfl, (hf m).1, (hf m).2⟩
  · rw [if_neg hk, hm]
    exact ⟨m, rfl, List.prefix_refl _, List.prefix_refl _⟩

theorem metaExt_aclSrcVisit (env : GraphEnv) (i : Nat) (st : BState) (x : String) :
    MetaExt st.nodeMeta (aclSrcVisit env i st x).nodeMeta := by
  unfold aclSrcVisit
  simp only []
  refine metaExt_trans
    (b := if (tlookup st.nodeMeta x).isSome then st.nodeMeta
      else st.nodeMeta ++ [(x, freshMeta env x "ACL")]) ?_ ?_
  · split
    · exact metaExt_refl _
    · exact metaExt_append _ _
  · exact metaExt_tmodify _ _ _ (fun m => ⟨List.prefix_append _ _, List.prefix_refl _⟩)

theorem metaExt_aclDstVisit (env : GraphEnv) (i : Nat) (st : BState) (x : String) :
    MetaExt st.nodeMeta (aclDstVisit env i st x).nodeMeta := by
  unfold aclDstVisit
  simp only []
  refine metaExt_trans
    (b := if (tlookup st.nodeMeta x).isSome then st.nodeMeta
      else st.nodeMeta ++ [(x, freshMeta env x "ACL")]) ?_ ?_
  · split
    · exact metaExt_refl _
    · exact metaExt_append _ _
  · exact metaExt_tmodify _ _ _ (fun m => ⟨List.prefix_refl _, List.prefix_append _ _⟩)

theorem metaExt_grantSrcVisit (env : GraphEnv) (g : Grant) (i : Nat) (st : BState)
    (x : String) : MetaExt st.nodeMeta (grantSrcVisit env g i st x).nodeMeta := by
  unfold grantSrcVisit
  simp only []
  refine metaExt_trans
    (b := match tlookup st.nodeMeta x with
      | none => st.nodeMeta ++ [(x, freshMeta env x "Grant")]
      | some m =>
        if m.ruleType = "ACL" then
          tmodify st.nodeMeta x (fun m2 => { m2 with ruleType := "Mixed" })
        else st.nodeMeta) ?_ ?_
  · split
    · exact metaExt_append _ _
    · split
      · exact metaExt_tmodify _ _ _ (fun m2 => ⟨List.prefix_refl _, List.prefix_refl _⟩)
      · exact metaExt_refl _
  · exact metaExt_tmodify _ _ _ (fun m => ⟨List.prefix_append _ _, List.prefix_refl _⟩)

theorem metaExt_grantDstVisit (env : GraphEnv) (g : Grant) (i : Nat) (st : BState)
    (x : String) : MetaExt st.nodeMeta (grantDstVisit env g i st x).nodeMeta := by
  unfold grantDstVisit
  simp only []
  refine metaExt_trans
    (b := match tlookup st.nodeMeta (stripEnhanced x) with
      | none => st.nodeMeta ++ [(stripEnhanced x, freshMeta env (stripEnhanced x) "Grant")]
      | some m =>
        if m.ruleType = "ACL" then
          tmodify st.nodeMeta (stripEnhanced x) (fun m2 => { m2 with ruleType := "Mixed" })
        else st.nodeMeta) ?_ ?_
  · split
    · exact metaExt_append _ _
    · split
      · exact metaExt_tmodify _ _ _ (fun m2 => ⟨List.prefix_refl _, List.prefix_refl _⟩)
      · exact metaExt_refl _
  · exact metaExt_tmodify _ _ _ (fun m => ⟨List.prefix_refl _, List.prefix_append _ _⟩)

theorem metaExt_foldl (f : BState → String → BState)
    (h : ∀ st x, MetaExt st.nodeMeta (f st x).nodeMeta) :
    ∀ (l : List String) (st : BState), MetaExt st.nodeMeta ((l.foldl f st).nodeMeta) := by
  intro l
  induction l with
  | nil => intro st; exact metaExt_refl _
  | cons x xs ih =>
    intro st
    rw [List.foldl_cons]
    exact metaExt_trans (h st x) (ih (f st x))

theorem foldl_nodeMeta_const (f : BState → String → BState)
    (h : ∀ st x, (f st x).nodeMeta = st.nodeMeta) :
    ∀ (l : List String) (st : BState), (l.foldl f st).nodeMeta = st.nodeMeta := by
  intro l
  induction l with
  | nil => intro st; rfl
  | cons x xs ih =>
    intro st
    rw [List.foldl_cons, ih, h]

theorem edgePairFold_nodeMeta (mk : String → String → EdgeMeta) (srcs dsts : List String)
    (st : BState) :
    (srcs.foldl (fun acc s => dsts.foldl (fun acc2 d =>
      { acc2 with edgeMeta := tset acc2.edgeMeta (s, d) (mk s d) }) acc) st).nodeMeta =
      st.nodeMeta := by
  refine foldl_nodeMeta_const _ ?_ srcs st
  intro st2 x
  exact foldl_nodeMeta_const
    (fun acc2 d => { acc2 with edgeMeta := tset acc2.edgeMeta (x, d) (mk x d) })
    (fun st3 y => rfl) dsts st2

theorem metaExt_processAclRule (env : GraphEnv) (i : Nat) (r : Acl) (st : BState) :
    MetaExt st.nodeMeta (processAclRule env i r st).1.nodeMeta := by
  unfold processAclRule
  simp only []
  rw [edgePairFold_nodeMeta (fun s d => aclEdgeMetaOf r i s d)]
  exact metaExt_trans (metaExt_foldl _ (metaExt_aclSrcVisit env i) _ st)
    (metaExt_foldl _ (metaExt_aclDstVisit env i) _ _)

theorem metaExt_processGrantRule (env : GraphEnv) (i : Nat) (g : Grant) (st : BState) :
    MetaExt st.nodeMeta (processGrantRule env i g st).1.nodeMeta := by
  unfold processGrantRule
  simp only []
  rw [edgePairFold_nodeMeta (fun s d => grantEdgeMetaOf g i s d)]
  exact metaExt_trans (metaExt_foldl _ (metaExt_grantSrcVisit env g i) _ st)
    (metaExt_foldl _ (metaExt_grantDstVisit env g i) _ _)

theorem metaExt_processAclsFrom (env : GraphEnv) :
    ∀ (acls : List Acl) (i0 : Nat) (st : BState),
      MetaExt st.nodeMeta (processAclsFrom env i0 acls st).1.nodeMeta := by
  intro acls
  induction acls with
  | nil => intro i0 st; exact metaExt_refl _
  | cons r rest ih =>
    intro i0 st
    unfold processAclsFrom
    simp only []
    exact metaExt_trans (metaExt_processAclRule env i0 r st) (ih (i0 + 1) _)

theorem metaExt_processGrantsFrom (env : GraphEnv) :
    ∀ (grants : List Grant) (i0 : Nat) (st : BState),
      MetaExt st.nodeMeta (processGrantsFrom env i0 grants st).1.nodeMeta := by
  intro grants
  induction grants with
  | nil => intro i0 st; exact metaExt_refl _
  | cons g rest ih =>
    intro i0 st
    unfold processGrantsFrom
    simp only []
    exact metaExt_trans (metaExt_processGrantRule env i0 g st) (ih (i0 + 1) _)

/-! #### Rule-reference establishment -/
theorem aclSrcVisit_ref_self (env : GraphEnv) (i : Nat) (st : BState) (A : String) :
    ∃ m, tlookup (aclSrcVisit env i st A).nodeMeta A = some m ∧
      aclRuleRef env i ∈ m.srcRules := by
  have h0 : ∃ m0, tlookup (if (tlookup st.nodeMeta A).isSome then st.nodeMeta
      else st.nodeMeta ++ [(A, freshMeta env A "ACL")]) A = some m0 := by
    cases h : tlookup st.nodeMeta A with
    | some m =>
      refine ⟨m, ?_⟩
      simp [h]
    | none =>
      refine ⟨freshMeta env A "ACL", ?_⟩
      simp only [h, Option.isSome_none, Bool.false_eq_true, if_false]
      rw [tlookup_append, h]
      simp [tlookup]
  obtain ⟨m0, hm0⟩ := h0
  have hl : tlookup (aclSrcVisit env i st A).nodeMeta A =
      some { m0 with srcRules := m0.srcRules ++ [aclRuleRef env i] } := by
    unfold aclSrcVisit
    simp only []
    rw [tlookup_tmodify, if_pos rfl, hm0]
    rfl
  exact ⟨_, hl, by simp⟩

theorem aclDstVisit_ref_self (env : GraphEnv) (i : Nat) (st : BState) (A : String) :
    ∃ m, tlookup (aclDstVisit env i st A).nodeMeta A = some m ∧
      aclRuleRef env i ∈ m.dstRules := by
  have h0 : ∃ m0, tlookup (if (tlookup st.nodeMeta A).isSome then st.nodeMeta
      else st.nodeMeta ++ [(A, freshMeta env A "ACL")]) A = some m0 := by
    cases h : tlookup st.nodeMeta A with
    | some m =>
      refine ⟨m, ?_⟩
      simp [h]
    | none =>
      refine ⟨freshMeta env A "ACL", ?_⟩
      simp only [h, Option.isSome_none, Bool.false_eq_true, if_false]
      rw [tlookup_append, h]
      simp [tlookup]
  obtain ⟨m0, hm0⟩ := h0
  have hl : tlookup (aclDstVisit env i st A).nodeMeta A =
      some { m0 with dstRules := m0.dstRules ++ [aclRuleRef env i] } := by
    unfold aclDstVisit
    simp only []
    rw [tlookup_tmodify, if_pos rfl, hm0]
    rfl
  exact ⟨_, hl, by simp⟩

theorem grantSrcVisit_ref_self (env : GraphEnv) (g : Grant) (i : Nat) (st : BState)
    (A : String) :
    ∃ m, tlookup (grantSrcVisit env g i st A).nodeMeta A = some m ∧
      grantRuleRef env i ∈ m.srcRules := by
  have h0 : ∃ m0, tlookup (match tlookup st.nodeMeta A with
      | none => st.nodeMeta ++ [(A, freshMeta env A "Grant")]
      | some m =>
        if m.ruleType = "ACL" then
          tmodify st.nodeMeta A (fun m2 => { m2 with ruleType := "Mixed" })
        else st.nodeMeta) A = some m0 := by
    cases h : tlookup st.nodeMeta A with
    | some m =>
      simp only []
      by_cases hrt : m.ruleType = "ACL"
      · rw [if_pos hrt, tlookup_tmodify, if_pos rfl, h]
        exact ⟨_, rfl⟩
      · rw [if_neg hrt]
        exact ⟨m, h⟩
    | none =>
      refine ⟨freshMeta env A "Grant", ?_⟩
      simp only []
      rw [tlookup_append, h]
      simp [tlookup]
  obtain ⟨m0, hm0⟩ := h0
  have hl : tlookup (grantSrcVisit env g i st A).nodeMeta A =
      some { m0 with
        srcRules := m0.srcRules ++ [grantRuleRef env i],
        protocols := m0.protocols ++ g.ip.getD [],
        via := m0.via ++ g.via.getD [],
        posture := m0.posture ++ g.srcPosture.getD [],
        apps := m0.apps ++ appsOfGrant g } := by
    unfold grantSrcVisit
    simp only []
    rw [tlookup_tmodify, if_pos rfl, hm0]
    rfl
  exact ⟨_, hl, by simp⟩

theorem grantDstVisit_ref_self (env : GraphEnv) (g : Grant) (i : Nat) (st : BState)
    (D : String) :
    ∃ m, tlookup (grantDstVisit env g i st D).nodeMeta (stripEnhanced D) = some m ∧
      grantRuleRef env i ∈ m.dstRules := by
  have h0 : ∃ m0, tlookup (match tlookup st.nodeMeta (stripEnhanced D) with
      | none =>
        st.nodeMeta ++ [(stripEnhanced D, freshMeta env (stripEnhanced D) "Grant")]
      | some m =>
        if m.ruleType = "ACL" then
          tmodify st.nodeMeta (stripEnhanced D) (fun m2 => { m2 with ruleType := "Mixed" })
        else st.nodeMeta) (stripEnhanced D) = some m0 := by
    cases h : tlookup st.nodeMeta (stripEnhanced D) with
    | some m =>
      simp only []
      by_cases hrt : m.ruleType = "ACL"
      · rw [if_pos hrt, tlookup_tmodify, if_pos rfl, h]
        exact ⟨_, rfl⟩
      · rw [if_neg hrt]
        exact ⟨m, h⟩
    | none =>
      refine ⟨freshMeta env (stripEnhanced D) "Grant", ?_⟩
      simp only []
      rw [tlookup_append, h]
      simp [tlookup]
  obtain ⟨m0, hm0⟩ := h0
  have hl : tlookup (grantDstVisit env g i st D).nodeMeta (stripEnhanced D) =
      some { m0 with
        dstRules := m0.dstRules ++ [grantRuleRef env i],
        protocols := m0.protocols ++ g.ip.getD [],
        via := m0.via ++ g.via.getD [],
        posture := m0.posture ++ g.dstPosture.getD [],
        apps := m0.apps ++ appsOfGrant g } := by
    unfold grantDstVisit
    simp only []
    rw [tlookup_tmodify, if_pos rfl, hm0]
    rfl
  exact ⟨_, hl, by simp⟩

theorem fold_aclSrcVisit_ref (env : GraphEnv) (i : Nat) :
    ∀ (l : List String) (st : BState) (A : String), A ∈ l →
      ∃ m, tlookup ((l.foldl (aclSrcVisit env i) st).nodeMeta) A = some m ∧
        aclRuleRef env i ∈ m.srcRules := by
  intro l
  induction l with
  | nil => intro st A h; simp at h
  | cons x xs ih =>
    intro st A hA
    rw [List.foldl_cons]
    rcases List.mem_cons.mp hA with h | h
    · subst h
      obtain ⟨m, hm, href⟩ := aclSrcVisit_ref_self env i st A
      obtain ⟨m2, hm2, hs2, _⟩ :=
        metaExt_foldl _ (metaExt_aclSrcVisit env i) xs (aclSrcVisit env i st A) A m hm
      exact ⟨m2, hm2, hs2.subset href⟩
    · exact ih _ A h

theorem fold_aclDstVisit_ref (env : GraphEnv) (i : Nat) :
    ∀ (l : List String) (st : BState) (A : String), A ∈ l →
      ∃ m, tlookup ((l.foldl (aclDstVisit env i) st).nodeMeta) A = some m ∧
        aclRuleRef env i ∈ m.dstRules := by
  intro l
  induction l with
  | nil => intro st A h; simp at h
  | cons x xs ih =>
    intro st A hA
    rw [List.foldl_cons]
    rcases List.mem_cons.mp hA with h | h
    · subst h
      obtain ⟨m, hm, href⟩ := aclDstVisit_ref_self env i st A
      obtain ⟨m2, hm2, _, hd2⟩ :=
        metaExt_foldl _ (metaExt_aclDstVisit env i) xs (aclDstVisit env i st A) A m hm
      exact ⟨m2, hm2, hd2.subset href⟩
    · exact ih _ A h

theorem fold_grantSrcVisit_ref (env : GraphEnv) (g : Grant) (i : Nat) :
    ∀ (l : List String) (st : BState) (A : String), A ∈ l →
      ∃ m, tlookup ((l.foldl (grantSrcVisit env g i) st).nodeMeta) A = some m ∧
        grantRuleRef env i ∈ m.srcRules := by
  intro l
  induction l with
  | nil => intro st A h; simp at h
  | cons x xs ih =>
    intro st A hA
    rw [List.foldl_cons]
    rcases List.mem_cons.mp hA with h | h
    · subst h
      obtain ⟨m, hm, href⟩ := grantSrcVisit_ref_self env g i st A
      obtain ⟨m2, hm2, hs2, _⟩ :=
        metaExt_foldl _ (metaExt_grantSrcVisit env g i) xs (grantSrcVisit env g i st A) A m hm
      exact ⟨m2, hm2, hs2.subset href⟩
    · exact ih _ A h

theorem fold_grantDstVisit_ref (env : GraphEnv) (g : Grant) (i : Nat) :
    ∀ (l : List String) (st : BState) (D : String), D ∈ l →
      ∃ m, tlookup ((l.foldl (grantDstVisit env g i) st).nodeMeta) (stripEnhanced D) =
          some m ∧ grantRuleRef env i ∈ m.dstRules := by
  intro l
  induction l with
  | nil => intro st D h; simp at h
  | cons x xs ih =>
    intro st D hD
    rw [List.foldl_cons]
    rcases List.mem_cons.mp hD with h | h
    · subst h
      obtain ⟨m, hm, href⟩ := grantDstVisit_ref_self env g i st D
      obtain ⟨m2, hm2, _, hd2⟩ :=
        metaExt_foldl _ (metaExt_grantDstVisit env g i) xs (grantDstVisit env g i st D)
          (stripEnhanced D) m hm
      exact ⟨m2, hm2, hd2.subset href⟩
    · exact ih _ D h

theorem processAclRule_ref (env : GraphEnv) (i : Nat) (r : Acl) (st : BState) :
    (∀ A ∈ r.src, ∃ m, tlookup (processAclRule env i r st).1.nodeMeta A = some m ∧
      aclRuleRef env i ∈ m.srcRules) ∧
    (∀ B ∈ r.dst, ∃ m, tlookup (processAclRule env i r st).1.nodeMeta B = some m ∧
      aclRuleRef env i ∈ m.dstRules) := by
  unfold processAclRule
  simp only []
  rw [edgePairFold_nodeMeta (fun s d => aclEdgeMetaOf r i s d)]
  constructor
  · intro A hA
    have hA2 : A ∈ resolveNodes r.src := by simp [resolveNodes, hA]
    obtain ⟨m, hm, href⟩ := fold_aclSrcVisit_ref env i (resolveNodes r.src) st A hA2
    obtain ⟨m2, hm2, hs2, _⟩ :=
      metaExt_foldl _ (metaExt_aclDstVisit env i) (resolveNodes r.dst) _ A m hm
    exact ⟨m2, hm2, hs2.subset href⟩
  · intro B hB
    have hB2 : B ∈ resolveNodes r.dst := by simp [resolveNodes, hB]
    exact fold_aclDstVisit_ref env i (resolveNodes r.dst) _ B hB2

theorem processGrantRule_ref (env : GraphEnv) (i : Nat) (g : Grant) (st : BState) :
    (∀ A ∈ g.src, ∃ m, tlookup (processGrantRule env i g st).1.nodeMeta A = some m ∧
      grantRuleRef env i ∈ m.srcRules) ∧
    (∀ D ∈ resolveGrantDestinations g,
      ∃ m, tlookup (processGrantRule env i g st).1.nodeMeta (stripEnhanced D) = some m ∧
        grantRuleRef env i ∈ m.dstRules) := by
  unfold processGrantRule
  simp only []
  rw [edgePairFold_nodeMeta (fun s d => grantEdgeMetaOf g i s d)]
  constructor
  · intro A hA
    have hA2 : A ∈ resolveNodes g.src := by simp [resolveNodes, hA]
    obtain ⟨m, hm, href⟩ := fold_grantSrcVisit_ref env g i (resolveNodes g.src) st A hA2
    obtain ⟨m2, hm2, hs2, _⟩ :=
      metaExt_foldl _ (metaExt_grantDstVisit env g i) (resolveGrantDestinations g) _ A m hm
    exact ⟨m2, hm2, hs2.subset href⟩
  · intro D hD
    exact fold_grantDstVisit_ref env g i (resolveGrantDestinations g) _ D hD

theorem processAclsFrom_ref (env : GraphEnv) :
    ∀ (acls : List Acl) (i0 : Nat) (st : BState) (i : Nat) (r : Acl),
      acls[i]? = some r →
      (∀ A ∈ r.src, ∃ m,
        tlookup (processAclsFrom env i0 acls st).1.nodeMeta A = some m ∧
          aclRuleRef env (i0 + i) ∈ m.srcRules) ∧
      (∀ B ∈ r.dst, ∃ m,
        tlookup (processAclsFrom env i0 acls st).1.nodeMeta B = some m ∧
          aclRuleRef env (i0 + i) ∈ m.dstRules) := by
  intro acls
  induction acls with
  | nil => intro i0 st i r hr; simp at hr
  | cons r0 rest ih =>
    intro i0 st i r hr
    unfold processAclsFrom
    simp only []
    cases i with
    | zero =>
      have hr0 : r0 = r := by simpa using hr
      subst hr0
      rw [Nat.add_zero]
      obtain ⟨hsrc, hdst⟩ := processAclRule_ref env i0 r0 st
      constructor
      · intro A hA
        obtain ⟨m, hm, href⟩ := hsrc A hA
        obtain ⟨m2, hm2, hs2, _⟩ :=
          metaExt_processAclsFrom env rest (i0 + 1) _ A m hm
        exact ⟨m2, hm2, hs2.subset href⟩
      · intro B hB
        obtain ⟨m, hm, href⟩ := hdst B hB
        obtain ⟨m2, hm2, _, hd2⟩ :=
          metaExt_processAclsFrom env rest (i0 + 1) _ B m hm
        exact ⟨m2, hm2, hd2.subset href⟩
    | succ k =>
      have hk : rest[k]? = some r := by simpa using hr
      have harith : i0 + (k + 1) = i0 + 1 + k := by omega
      rw [harith]
      exact ih (i0 + 1) _ k r hk

theorem processGrantsFrom_ref (env : GraphEnv) :
    ∀ (grants : List Grant) (i0 : Nat) (st : BState) (j : Nat) (g : Grant),
      grants[j]? = some g →
      (∀ A ∈ g.src, ∃ m,
        tlookup (processGrantsFrom env i0 grants st).1.nodeMeta A = some m ∧
          grantRuleRef env (i0 + j) ∈ m.srcRules) ∧
      (∀ D ∈ resolveGrantDestinations g, ∃ m,
        tlookup (processGrantsFrom env i0 grants st).1.nodeMeta (stripEnhanced D) =
          some m ∧ grantRuleRef env (i0 + j) ∈ m.dstRules) := by
  intro grants
  induction grants with
  | nil => intro i0 st j g hg; simp at hg
  | cons g0 rest ih =>
    intro i0 st j g hg
    unfold processGrantsFrom
    simp only []
    cases j with
    | zero =>
      have hg0 : g0 = g := by simpa using hg
      subst hg0
      rw [Nat.add_zero]
      obtain ⟨hsrc, hdst⟩ := processGrantRule_ref env i0 g0 st
      constructor
      · intro A hA
        obtain ⟨m, hm, href⟩ := hsrc A hA
        obtain ⟨m2, hm2, hs2, _⟩ :=
          metaExt_processGrantsFrom env rest (i0 + 1) _ A m hm
        exact ⟨m2, hm2, hs2.subset href⟩
      · intro D hD
        obtain ⟨m, hm, href⟩ := hdst D hD
        obtain ⟨m2, hm2, _, hd2⟩ :=
          metaExt_processGrantsFrom env rest (i0 + 1) _ (stripEnhanced D) m hm
        exact ⟨m2, hm2, hd2.subset href⟩
    | succ k =>
      have hk : rest[k]? = some g := by simpa using hg
      have harith : i0 + (k + 1) = i0 + 1 + k := by omega
      rw [harith]
      exact ih (i0 + 1) _ k g hk

/-! #### Edge lists -/
theorem processAclRule_edges_mem (env : GraphEnv) (i : Nat) (r : Acl) (st : BState)
    (e : String × String) :
    e ∈ (processAclRule env i r st).2.1 ↔ e.1 ∈ r.src ∧ e.2 ∈ r.dst := by
  unfold processAclRule
  simp only []
  rcases e with ⟨a, b⟩
  simp [resolveNodes]

theorem processGrantRule_edges_mem (env : GraphEnv) (i : Nat) (g : Grant) (st : BState)
    (e : String × String) :
    e ∈ (processGrantRule env i g st).2.1 ↔
      e.1 ∈ g.src ∧ e.2 ∈ resolveGrantDestinations g := by
  unfold processGrantRule
  simp only []
  rcases e with ⟨a, b⟩
  simp [resolveNodes]

theorem processAclsFrom_edges_mem (env : GraphEnv) :
    ∀ (acls : List Acl) (i0 : Nat) (st : BState) (e : String × String),
      e ∈ (processAclsFrom env i0 acls st).2.1 ↔
        ∃ r ∈ acls, e.1 ∈ r.src ∧ e.2 ∈ r.dst := by
  intro acls
  induction acls with
  | nil => intro i0 st e; simp [processAclsFrom]
  | cons r rest ih =>
    intro i0 st e
    unfold processAclsFrom
    simp only [List.mem_append]
    rw [processAclRule_edges_mem, ih]
    simp

theorem processGrantsFrom_edges_mem (env : GraphEnv) :
    ∀ (grants : List Grant) (i0 : Nat) (st : BState) (e : String × String),
      e ∈ (processGrantsFrom env i0 grants st).2.1 ↔
        ∃ g ∈ grants, e.1 ∈ g.src ∧ e.2 ∈ resolveGrantDestinations g := by
  intro grants
  induction grants with
  | nil => intro i0 st e; simp [processGrantsFrom]
  | cons g rest ih =>
    intro i0 st e
    unfold processGrantsFrom
    simp only [List.mem_append]
    rw [processGrantRule_edges_mem, ih]
    simp

theorem buildGraph_edges_iff (env : GraphEnv) (acls : List Acl) (grants : List Grant)
    (e : String × String) :
    e ∈ (buildGraph env acls grants).edges ↔
      (∃ r ∈ acls, e.1 ∈ r.src ∧ e.2 ∈ r.dst) ∨
      (∃ g ∈ grants, e.1 ∈ g.src ∧ e.2 ∈ resolveGrantDestinations g) := by
  unfold buildGraph
  simp only []
  rw [List.mem_dedup, List.mem_append]
  rw [processAclsFrom_edges_mem, processGrantsFrom_edges_mem]

theorem buildGraph_edges_nodup (env : GraphEnv) (acls : List Acl) (grants : List Grant) :
    (buildGraph env acls grants).edges.Nodup := by
  unfold buildGraph
  simp only []
  exact List.nodup_dedup _

/-! #### C3: amended edge dedup with preserved metadata -/
theorem cleanId_strip (x : String) (h : cleanId x) : stripEnhanced x = x := by
  have hc : strContains x " [" = false := decide_eq_false h
  unfold stripEnhanced
  rw [hc]
  simp

/-- C3 (amended): for bracket-free rule identifiers, the final edge list
of `build_graph` is duplicate-free and contains a pair produced by both
an ACL rule and a grant rule exactly once, while the source node's
`src_rules` and the destination node's `dst_rules` metadata keep both
rules' reference strings.  (Unrestricted, the claim fails: an ACL
destination that textually looks like an enhanced id, e.g.
`"server [tcp:443]"`, collides with a grant-enhanced id; the edges then
coincide but the grant's metadata lands on the stripped base id, so the
shared node's `dst_rules` lacks the grant reference — see the
counterexample.) -/
theorem claim_C3_edge_dedup_amended (env : GraphEnv) (acls : List Acl)
    (grants : List Grant) (i j : Nat) (r : Acl) (g : Grant) (A B : String)
    (hclean : CleanRules acls grants)
    (hr : acls[i]? = some r) (hg : grants[j]? = some g)
    (hAr : A ∈ r.src) (hBr : B ∈ r.dst)
    (hAg : A ∈ g.src) (hBg : B ∈ resolveGrantDestinations g) :
    ((buildGraph env acls grants).edges.Nodup ∧
      (A, B) ∈ (buildGraph env acls grants).edges) ∧
    (∃ m, tlookup (buildGraph env acls grants).nodeMeta A = some m ∧
      aclRuleRef env i ∈ m.srcRules ∧ grantRuleRef env j ∈ m.srcRules) ∧
    (∃ m, tlookup (buildGraph env acls grants).nodeMeta B = some m ∧
      aclRuleRef env i ∈ m.dstRules ∧ grantRuleRef env j ∈ m.dstRules) := by
  have hrmem : r ∈ acls := List.getElem?_mem hr
  have hBclean : cleanId B := (hclean.1 r hrmem).2 B hBr
  have hnm : (buildGraph env acls grants).nodeMeta =
      (processGrantsFrom env 0 grants
        (processAclsFrom env 0 acls ⟨[], [], []⟩).1).1.nodeMeta := rfl
  rw [hnm]
  refine ⟨⟨buildGraph_edges_nodup env acls grants, ?_⟩, ?_, ?_⟩
  · rw [buildGraph_edges_iff]
    exact Or.inl ⟨r, hrmem, hAr, hBr⟩
  · obtain ⟨hsrcA, _⟩ := processAclsFrom_ref env acls 0 ⟨[], [], []⟩ i r hr
    obtain ⟨m, hm, hrefA⟩ := hsrcA A hAr
    rw [Nat.zero_add] at hrefA
    obtain ⟨m2, hm2, hpre, _⟩ := metaExt_processGrantsFrom env grants 0 _ A m hm
    obtain ⟨hsrcG, _⟩ :=
      processGrantsFrom_ref env grants 0 (processAclsFrom env 0 acls ⟨[], [], []⟩).1 j g hg
    obtain ⟨m3, hm3, hrefG⟩ := hsrcG A hAg
    rw [Nat.zero_add] at hrefG
    rw [hm2] at hm3
    obtain rfl : m2 = m3 := Option.some.inj hm3
    exact ⟨m2, hm2, hpre.subset hrefA, hrefG⟩
  · obtain ⟨_, hdstA⟩ := processAclsFrom_ref env acls 0 ⟨[], [], []⟩ i r hr
    obtain ⟨m, hm, hrefA⟩ := hdstA B hBr
    rw [Nat.zero_add] at hrefA
    obtain ⟨m2, hm2, _, hpre⟩ := metaExt_processGrantsFrom env grants 0 _ B m hm
    obtain ⟨_, hdstG⟩ :=
      processGrantsFrom_ref env grants 0 (processAclsFrom env 0 acls ⟨[], [], []⟩).1 j g hg
    obtain ⟨m3, hm3, hrefG⟩ := hdstG B hBg
    rw [Nat.zero_add] at hrefG
    rw [cleanId_strip B hBclean] at hm3
    rw [hm2] at hm3
    obtain rfl : m2 = m3 := Option.some.inj hm3
    exact ⟨m2, hm2, hpre.subset hrefA, hrefG⟩

/-- Witness for the amended C3 theorem: a concrete ACL rule and grant
rule both producing edge `("u", "server")`. -/
theorem claim_C3_amended_witness :
    CleanRules [{ action := some "accept", src := ["u"], dst := ["server"] }]
      [({ src := ["u"], dst := ["server"] } : Grant)] ∧
    (((buildGraph { hosts := [], groups := [] }
        [{ action := some "accept", src := ["u"], dst := ["server"] }]
        [{ src := ["u"], dst := ["server"] }]).edges.Nodup ∧
      ("u", "server") ∈ (buildGraph { hosts := [], groups := [] }
        [{ action := some "accept", src := ["u"], dst := ["server"] }]
        [{ src := ["u"], dst := ["server"] }]).edges) ∧
    (∃ m, tlookup (buildGraph { hosts := [], groups := [] }
        [{ action := some "accept", src := ["u"], dst := ["server"] }]
        [{ src := ["u"], dst := ["server"] }]).nodeMeta "u" = some m ∧
      aclRuleRef { hosts := [], groups := [] } 0 ∈ m.srcRules ∧
      grantRuleRef { hosts := [], groups := [] } 0 ∈ m.srcRules) ∧
    (∃ m, tlookup (buildGraph { hosts := [], groups := [] }
        [{ action := some "accept", src := ["u"], dst := ["server"] }]
        [{ src := ["u"], dst := ["server"] }]).nodeMeta "server" = some m ∧
      aclRuleRef { hosts := [], groups := [] } 0 ∈ m.dstRules ∧
      grantRuleRef { hosts := [], groups := [] } 0 ∈ m.dstRules)) :=
  ⟨by unfold CleanRules cleanId; decide,
   claim_C3_edge_dedup_amended { hosts := [], groups := [] }
     [{ action := some "accept", src := ["u"], dst := ["server"] }]
     [{ src := ["u"], dst := ["server"] }] 0 0 _ _ "u" "server"
     (by unfold CleanRules cleanId; decide) rfl rfl (by decide) (by decide) (by decide)
     (by decide)⟩

/-! #### C2: node-shape classification machinery -/
theorem takeBefore2_clean_append (a b : Char) (hab : a ≠ b) :
    ∀ (l t : List Char), ¬([a, b] <:+: l) →
      takeBefore2 a b (l ++ a :: b :: t) = l := by
  intro l
  induction l with
  | nil =>
    intro t _
    show takeBefore2 a b (a :: b :: t) = []
    simp only [takeBefore2]
    simp
  | cons x xs ih =>
    intro t hcl
    cases xs with
    | nil =>
      show takeBefore2 a b (x :: a :: b :: t) = [x]
      simp only [takeBefore2]
      have hx : ¬(x = a ∧ a = b) := fun h => hab h.2
      rw [if_neg hx]
      simp
    | cons y ys =>
      show takeBefore2 a b (x :: y :: (ys ++ a :: b :: t)) = x :: y :: ys
      simp only [takeBefore2]
      have hx : ¬(x = a ∧ y = b) := by
        intro h
        exact hcl ⟨[], ys, by rw [h.1, h.2]; rfl⟩
      rw [if_neg hx]
      have hys : ¬([a, b] <:+: (y :: ys)) :=
        fun h => hcl (h.trans (List.suffix_cons x (y :: ys)).isInfix)
      exact congrArg (List.cons x) (ih t hys)

theorem clean_pair_prefix :
    ∀ (u v : List Char), ¬([' ', '['] <:+: u) → ¬([' ', '['] <:+: v) →
      ∀ t : List Char, u ++ [' ', '['] <+: v ++ ' ' :: '[' :: t → u = v := by
  intro u
  induction u with
  | nil =>
    intro v _ hv t h
    cases v with
    | nil => rfl
    | cons c vs =>
      exfalso
      simp only [List.nil_append, List.cons_append] at h
      rw [List.cons_prefix_cons] at h
      obtain ⟨hc, h2⟩ := h
      cases vs with
      | nil =>
        simp only [List.nil_append] at h2
        rw [List.cons_prefix_cons] at h2
        exact absurd h2.1 (by decide)
      | cons d ds =>
        simp only [List.cons_append] at h2
        rw [List.cons_prefix_cons] at h2
        exact hv ⟨[], ds, by rw [hc, h2.1]; rfl⟩
  | cons c us ih =>
    intro v hu hv t h
    cases v with
    | nil =>
      exfalso
      simp only [List.cons_append, List.nil_append] at h
      rw [List.cons_prefix_cons] at h
      obtain ⟨hc, h2⟩ := h
      cases us with
      | nil =>
        simp only [List.nil_append] at h2
        rw [List.cons_prefix_cons] at h2
        exact absurd h2.1 (by decide)
      | cons d ds =>
        simp only [List.cons_append] at h2
        rw [List.cons_prefix_cons] at h2
        exact hu ⟨[], ds, by rw [hc, h2.1]; rfl⟩
    | cons d vs =>
      simp only [List.cons_append] at h
      rw [List.cons_prefix_cons] at h
      obtain ⟨hcd, h2⟩ := h
      have hus : ¬([' ', '['] <:+: us) :=
        fun hx => hu (hx.trans (List.suffix_cons c us).isInfix)
      have hvs : ¬([' ', '['] <:+: vs) :=
        fun hx => hv (hx.trans (List.suffix_cons d vs).isInfix)
      rw [hcd, ih vs hus hvs t h2]

theorem strip_enhanced_of_clean (d S : String) (hd : cleanId d) :
    stripEnhanced (d ++ " [" ++ S ++ "]") = d := by
  have hdata : (d ++ " [" ++ S ++ "]").data =
      d.data ++ ' ' :: '[' :: (S.data ++ [']']) := by
    simp [String.data_append]
  have hcont : strContains (d ++ " [" ++ S ++ "]") " [" = true := by
    unfold strContains
    rw [hdata]
    exact decide_eq_true ⟨d.data, S.data ++ [']'], by simp⟩
  have hend : strEndsWith (d ++ " [" ++ S ++ "]") "]" = true := by
    unfold strEndsWith
    rw [hdata]
    exact decide_eq_true ⟨d.data ++ ' ' :: '[' :: S.data, by simp⟩
  unfold stripEnhanced
  rw [hcont, hend]
  simp only [Bool.and_self, if_true]
  rw [hdata]
  rw [takeBefore2_clean_append ' ' '[' (by decide) d.data (S.data ++ [']']) hd]
  rw [if_pos (by decide)]

theorem not_clean_enh (d S : String) : ¬ cleanId (d ++ " [" ++ S ++ "]") := by
  intro h
  exact h ⟨d.data, S.data ++ [']'], by simp [String.data_append]⟩

theorem enhancedMatches_clean_false (m k : String) (hk : cleanId k) :
    enhancedMatches m k = false := by
  unfold enhancedMatches
  have hs : strStartsWith k (m ++ " [") = false := by
    unfold strStartsWith
    refine decide_eq_false ?_
    intro hpre
    refine hk (List.IsInfix.trans ?_ hpre.isInfix)
    refine ⟨m.data, [], ?_⟩
    simp [String.data_append]
  rw [hs]
  rfl

theorem enhancedMatches_enh_iff (m d S : String) (hm : cleanId m) (hd : cleanId d) :
    enhancedMatches m (d ++ " [" ++ S ++ "]") = true ↔ m = d := by
  constructor
  · intro h
    unfold enhancedMatches at h
    rw [Bool.and_eq_true] at h
    have hpre := of_decide_eq_true h.1
    have hpre2 : m.data ++ [' ', '['] <+: d.data ++ ' ' :: '[' :: (S.data ++ [']']) := by
      have h1 : (m ++ " [").data = m.data ++ [' ', '['] := by simp [String.data_append]
      have h2 : (d ++ " [" ++ S ++ "]").data =
          d.data ++ ' ' :: '[' :: (S.data ++ [']']) := by simp [String.data_append]
      rw [← h1, ← h2]
      exact hpre
    have := clean_pair_prefix m.data d.data hm hd _ hpre2
    exact String.ext this
  · intro h
    subst h
    unfold enhancedMatches
    rw [Bool.and_eq_true]
    constructor
    · unfold strStartsWith
      refine decide_eq_true ?_
      refine ⟨(S.data ++ [']']), ?_⟩
      simp [String.data_append]
    · unfold strEndsWith
      refine decide_eq_true ?_
      exact ⟨m.data ++ ' ' :: '[' :: S.data, by simp [String.data_append]⟩

theorem tlookup_promoteOne (m : String) (ns : List (String × (String × String × String)))
    (k : String) :
    tlookup (promoteOne m ns) k = (tlookup ns k).map (fun v =>
      if k = m ∨ enhancedMatches m k = true then (v.1, v.2.1, "hexagon") else v) := by
  induction ns with
  | nil => rfl
  | cons p rest ih =>
    unfold promoteOne at *
    rw [List.map_cons]
    by_cases hk : p.1 = k
    · subst hk
      by_cases hc : p.1 = m ∨ enhancedMatches m p.1 = true
      · rw [if_pos hc]
        simp [tlookup]
        rw [if_pos hc]
      · rw [if_neg hc]
        simp [tlookup]
        rw [if_neg hc]
    · by_cases hc : p.1 = m ∨ enhancedMatches m p.1 = true
      · rw [if_pos hc]
        simp only [tlookup, hk, if_neg hk]
        exact ih
      · rw [if_neg hc]
        simp only [tlookup, hk, if_neg hk]
        exact ih

theorem promoteMixed_lookup :
    ∀ (mixed : List String) (ns : List (String × (String × String × String))) (k : String),
      tlookup (promoteMixed mixed ns) k = (tlookup ns k).map (fun v =>
        if mixed.any (fun m => decide (k = m) || enhancedMatches m k) = true then
          (v.1, v.2.1, "hexagon") else v) := by
  intro mixed
  induction mixed with
  | nil =>
    intro ns k
    show tlookup ns k = _
    cases tlookup ns k <;> simp
  | cons m ms ih =>
    intro ns k
    show tlookup (promoteMixed ms (promoteOne m ns)) k = _
    rw [ih, tlookup_promoteOne]
    cases h : tlookup ns k with
    | none => rfl
    | some v =>
      simp only [Option.map_some', List.any_cons, Bool.or_eq_true, decide_eq_true_eq]
      by_cases h1 : k = m ∨ enhancedMatches m k = true
      · rw [if_pos h1]
        by_cases h2 : ms.any (fun m2 => decide (k = m2) || enhancedMatches m2 k) = true
        · simp [h1, h2]
        · simp [h1, h2]
      · rw [if_neg h1]
        by_cases h2 : ms.any (fun m2 => decide (k = m2) || enhancedMatches m2 k) = true
        · simp [h1, h2]
        · simp [h1, h2]

theorem tlookup_updateTooltips (env : GraphEnv) (meta : List (String × NodeMeta)) :
    ∀ (ns : List (String × (String × String × String))) (k : String),
      tlookup (updateComprehensiveTooltips env meta ns) k = (tlookup ns k).map
        (fun v => (v.1, getComprehensiveTooltip env meta k, v.2.2)) := by
  intro ns
  induction ns with
  | nil => intro k; rfl
  | cons p rest ih =>
    intro k
    unfold updateComprehensiveTooltips at *
    rw [List.map_cons]
    by_cases hk : p.1 = k
    · subst hk
      simp [tlookup]
    · simp only [tlookup, hk, if_false]
      exact ih k

theorem tlookup_condAppend_pres {β : Type} (t : List (String × β)) (x : String) (w : β)
    (k : String) (v : β) (h : tlookup t k = some v) :
    tlookup (if (tlookup t x).isSome then t else t ++ [(x, w)]) k = some v := by
  split
  · exact h
  · rw [tlookup_append, h]

theorem tlookup_condAppend_cases {β : Type} (t : List (String × β)) (x : String) (w : β)
    (k : String) (v : β)
    (h : tlookup (if (tlookup t x).isSome then t else t ++ [(x, w)]) k = some v) :
    tlookup t k = some v ∨ (k = x ∧ v = w) := by
  split at h
  · exact Or.inl h
  · rw [tlookup_append] at h
    cases htk : tlookup t k with
    | some u =>
      rw [htk] at h
      exact Or.inl h
    | none =>
      rw [htk] at h
      by_cases hx : x = k
      · refine Or.inr ⟨hx.symm, ?_⟩
        unfold tlookup at h
        rw [if_pos hx] at h
        exact (Option.some.inj h).symm
      · exfalso
        unfold tlookup at h
        rw [if_neg hx] at h
        exact Option.noConfusion h

theorem tlookup_condAppend_isSome {β : Type} (t : List (String × β)) (x : String) (w : β) :
    (tlookup (if (tlookup t x).isSome then t else t ++ [(x, w)]) x).isSome := by
  split
  · rename_i h
    exact h
  · rename_i h
    have hn : tlookup t x = none := by
      cases ht : tlookup t x with
      | none => rfl
      | some u => rw [ht] at h; simp at h
    rw [tlookup_append, hn]
    simp [tlookup]

theorem foldl_allNodes_const (f : BState → String → BState)
    (h : ∀ st x, (f st x).allNodes = st.allNodes) :
    ∀ (l : List String) (st : BState), (l.foldl f st).allNodes = st.allNodes := by
  intro l
  induction l with
  | nil => intro st; rfl
  | cons x xs ih =>
    intro st
    rw [List.foldl_cons, ih, h]

theorem edgePairFold_allNodes (mk : String → String → EdgeMeta) (srcs dsts : List String)
    (st : BState) :
    (srcs.foldl (fun acc s => dsts.foldl (fun acc2 d =>
      { acc2 with edgeMeta := tset acc2.edgeMeta (s, d) (mk s d) }) acc) st).allNodes =
      st.allNodes := by
  refine foldl_allNodes_const _ ?_ srcs st
  intro st2 x
  exact foldl_allNodes_const
    (fun acc2 d => { acc2 with edgeMeta := tset acc2.edgeMeta (x, d) (mk x d) })
    (fun st3 y => rfl) dsts st2

theorem aclSrcVisit_allNodes (env : GraphEnv) (i : Nat) (st : BState) (x : String) :
    (aclSrcVisit env i st x).allNodes =
      (if (tlookup st.allNodes x).isSome then st.allNodes
       else st.allNodes ++ [(x, (getNodeColor x, getNodeTooltip env x, "dot"))]) := rfl

theorem aclDstVisit_allNodes (env : GraphEnv) (i : Nat) (st : BState) (x : String) :
    (aclDstVisit env i st x).allNodes =
      (if (tlookup st.allNodes x).isSome then st.allNodes
       else st.allNodes ++ [(x, (getNodeColor x, getNodeTooltip env x, "dot"))]) := rfl

theorem grantSrcVisit_allNodes (env : GraphEnv) (g : Grant) (i : Nat) (st : BState)
    (x : String) :
    (grantSrcVisit env g i st x).allNodes =
      (if (tlookup st.allNodes x).isSome then st.allNodes
       else st.allNodes ++
         [(x, (getNodeColor x, getGrantSrcTooltip env st.nodeMeta g x, "triangle"))]) := rfl

theorem grantDstVisit_allNodes (env : GraphEnv) (g : Grant) (i : Nat) (st : BState)
    (x : String) :
    (grantDstVisit env g i st x).allNodes =
      (if (tlookup st.allNodes x).isSome then st.allNodes
       else st.allNodes ++
         [(x, (getNodeColor x, getGrantDstTooltip env st.nodeMeta g x, "triangle"))]) := rfl

theorem fold_allNodes_pres (f : BState → String → BState)
    (hf : ∀ st x k v, tlookup st.allNodes k = some v →
      tlookup (f st x).allNodes k = some v) :
    ∀ (l : List String) (st : BState) (k : String) (v : String × String × String),
      tlookup st.allNodes k = some v → tlookup (l.foldl f st).allNodes k = some v := by
  intro l
  induction l with
  | nil => intro st k v h; exact h
  | cons x xs ih =>
    intro st k v h
    rw [List.foldl_cons]
    exact ih _ k v (hf st x k v h)

theorem fold_allNodes_cases (f : BState → String → BState) (sh : String)
    (hf : ∀ st x k v, tlookup (f st x).allNodes k = some v →
      tlookup st.allNodes k = some v ∨ (k = x ∧ v.2.2 = sh)) :
    ∀ (l : List String) (st : BState) (k : String) (v : String × String × String),
      tlookup (l.foldl f st).allNodes k = some v →
        tlookup st.allNodes k = some v ∨ (k ∈ l ∧ v.2.2 = sh) := by
  intro l
  induction l with
  | nil => intro st k v h; exact Or.inl h
  | cons x xs ih =>
    intro st k v h
    rw [List.foldl_cons] at h
    rcases ih _ k v h with h2 | h2
    · rcases hf st x k v h2 with h3 | h3
      · exact Or.inl h3
      · exact Or.inr ⟨by rw [h3.1]; exact List.mem_cons_self x xs, h3.2⟩
    · exact Or.inr ⟨List.mem_cons_of_mem x h2.1, h2.2⟩

theorem fold_allNodes_isSome (f : BState → String → BState)
    (hf : ∀ st x k v, tlookup st.allNodes k = some v →
      tlookup (f st x).allNodes k = some v)
    (hc : ∀ st x, (tlookup (f st x).allNodes x).isSome) :
    ∀ (l : List String) (st : BState) (k : String), k ∈ l →
      (tlookup (l.foldl f st).allNodes k).isSome := by
  intro l
  induction l with
  | nil => intro st k h; simp at h
  | cons x xs ih =>
    intro st k h
    rw [List.foldl_cons]
    rcases List.mem_cons.mp h with h2 | h2
    · subst h2
      cases hv : tlookup (f st k).allNodes k with
      | none =>
        have hck := hc st k
        rw [hv] at hck
        simp at hck
      | some v =>
        have := fold_allNodes_pres f hf xs (f st k) k v hv
        rw [this]
        rfl
    · exact ih _ k h2

theorem aclSrcVisit_pres (env : GraphEnv) (i : Nat) (st : BState) (x k : String)
    (v : String × String × String) (h : tlookup st.allNodes k = some v) :
    tlookup (aclSrcVisit env i st x).allNodes k = some v := by
  rw [aclSrcVisit_allNodes]
  exact tlookup_condAppend_pres _ _ _ _ _ h

theorem aclDstVisit_pres (env : GraphEnv) (i : Nat) (st : BState) (x k : String)
    (v : String × String × String) (h : tlookup st.allNodes k = some v) :
    tlookup (aclDstVisit env i st x).allNodes k = some v := by
  rw [aclDstVisit_allNodes]
  exact tlookup_condAppend_pres _ _ _ _ _ h

theorem grantSrcVisit_pres (env : GraphEnv) (g : Grant) (i : Nat) (st : BState)
    (x k : String) (v : String × String × String) (h : tlookup st.allNodes k = some v) :
    tlookup (grantSrcVisit env g i st x).allNodes k = some v := by
  rw [grantSrcVisit_allNodes]
  exact tlookup_condAppend_pres _ _ _ _ _ h

theorem grantDstVisit_pres (env : GraphEnv) (g : Grant) (i : Nat) (st : BState)
    (x k : String) (v : String × String × String) (h : tlookup st.allNodes k = some v) :
    tlookup (grantDstVisit env g i st x).allNodes k = some v := by
  rw [grantDstVisit_allNodes]
  exact tlookup_condAppend_pres _ _ _ _ _ h

theorem aclSrcVisit_cases (env : GraphEnv) (i : Nat) (st : BState) (x k : String)
    (v : String × String × String)
    (h : tlookup (aclSrcVisit env i st x).allNodes k = some v) :
    tlookup st.allNodes k = some v ∨ (k = x ∧ v.2.2 = "dot") := by
  rw [aclSrcVisit_allNodes] at h
  rcases tlookup_condAppend_cases _ _ _ _ _ h with h1 | h1
  · exact Or.inl h1
  · exact Or.inr ⟨h1.1, by rw [h1.2]⟩

theorem aclDstVisit_cases (env : GraphEnv) (i : Nat) (st : BState) (x k : String)
    (v : String × String × String)
    (h : tlookup (aclDstVisit env i st x).allNodes k = some v) :
    tlookup st.allNodes k = some v ∨ (k = x ∧ v.2.2 = "dot") := by
  rw [aclDstVisit_allNodes] at h
  rcases tlookup_condAppend_cases _ _ _ _ _ h with h1 | h1
  · exact Or.inl h1
  · exact Or.inr ⟨h1.1, by rw [h1.2]⟩

theorem grantSrcVisit_cases (env : GraphEnv) (g : Grant) (i : Nat) (st : BState)
    (x k : String) (v : String × String × String)
    (h : tlookup (grantSrcVisit env g i st x).allNodes k = some v) :
    tlookup st.allNodes k = some v ∨ (k = x ∧ v.2.2 = "triangle") := by
  rw [grantSrcVisit_allNodes] at h
  rcases tlookup_condAppend_cases _ _ _ _ _ h with h1 | h1
  · exact Or.inl h1
  · exact Or.inr ⟨h1.1, by rw [h1.2]⟩

theorem grantDstVisit_cases (env : GraphEnv) (g : Grant) (i : Nat) (st : BState)
    (x k : String) (v : String × String × String)
    (h : tlookup (grantDstVisit env g i st x).allNodes k = some v) :
    tlookup st.allNodes k = some v ∨ (k = x ∧ v.2.2 = "triangle") := by
  rw [grantDstVisit_allNodes] at h
  rcases tlookup_condAppend_cases _ _ _ _ _ h with h1 | h1
  · exact Or.inl h1
  · exact Or.inr ⟨h1.1, by rw [h1.2]⟩

theorem aclSrcVisit_isSome (env : GraphEnv) (i : Nat) (st : BState) (x : String) :
    (tlookup (aclSrcVisit env i st x).allNodes x).isSome := by
  rw [aclSrcVisit_allNodes]
  exact tlookup_condAppend_isSome _ _ _

theorem aclDstVisit_isSome (env : GraphEnv) (i : Nat) (st : BState) (x : String) :
    (tlookup (aclDstVisit env i st x).allNodes x).isSome := by
  rw [aclDstVisit_allNodes]
  exact tlookup_condAppend_isSome _ _ _

theorem processAclRule_allNodes_cases (env : GraphEnv) (i : Nat) (r : Acl) (st : BState)
    (k : String) (v : String × String × String)
    (h : tlookup (processAclRule env i r st).1.allNodes k = some v) :
    tlookup st.allNodes k = some v ∨ ((k ∈ r.src ∨ k ∈ r.dst) ∧ v.2.2 = "dot") := by
  unfold processAclRule at h
  simp only [] at h
  rw [edgePairFold_allNodes (fun s d => aclEdgeMetaOf r i s d)] at h
  rcases fold_allNodes_cases (aclDstVisit env i) "dot"
      (fun st x k v h => aclDstVisit_cases env i st x k v h)
      (resolveNodes r.dst) _ k v h with h1 | h1
  · rcases fold_allNodes_cases (aclSrcVisit env i) "dot"
        (fun st x k v h => aclSrcVisit_cases env i st x k v h)
        (resolveNodes r.src) _ k v h1 with h2 | h2
    · exact Or.inl h2
    · refine Or.inr ⟨Or.inl ?_, h2.2⟩
      have := h2.1
      simp [resolveNodes] at this
      exact this
  · refine Or.inr ⟨Or.inr ?_, h1.2⟩
    have := h1.1
    simp [resolveNodes] at this
    exact this

theorem processAclRule_allNodes_pres (env : GraphEnv) (i : Nat) (r : Acl) (st : BState)
    (k : String) (v : String × String × String)
    (h : tlookup st.allNodes k = some v) :
    tlookup (processAclRule env i r st).1.allNodes k = some v := by
  unfold processAclRule
  simp only []
  rw [edgePairFold_allNodes (fun s d => aclEdgeMetaOf r i s d)]
  refine fold_allNodes_pres (aclDstVisit env i)
    (fun st x k v h => aclDstVisit_pres env i st x k v h) (resolveNodes r.dst) _ k v ?_
  exact fold_allNodes_pres (aclSrcVisit env i)
    (fun st x k v h => aclSrcVisit_pres env i st x k v h) (resolveNodes r.src) _ k v h

theorem processGrantRule_allNodes_cases (env : GraphEnv) (i : Nat) (g : Grant)
    (st : BState) (k : String) (v : String × String × String)
    (h : tlookup (processGrantRule env i g st).1.allNodes k = some v) :
    tlookup st.allNodes k = some v ∨
      ((k ∈ g.src ∨ k ∈ resolveGrantDestinations g) ∧ v.2.2 = "triangle") := by
  unfold processGrantRule at h
  simp only [] at h
  rw [edgePairFold_allNodes (fun s d => grantEdgeMetaOf g i s d)] at h
  rcases fold_allNodes_cases (fun st2 d => grantDstVisit env g i st2 d) "triangle"
      (fun st x k v h => grantDstVisit_cases env g i st x k v h)
      (resolveGrantDestinations g) _ k v h with h1 | h1
  · rcases fold_allNodes_cases (fun st2 s => grantSrcVisit env g i st2 s) "triangle"
        (fun st x k v h => grantSrcVisit_cases env g i st x k v h)
        (resolveNodes g.src) _ k v h1 with h2 | h2
    · exact Or.inl h2
    · refine Or.inr ⟨Or.inl ?_, h2.2⟩
      have := h2.1
      simp [resolveNodes] at this
      exact this
  · exact Or.inr ⟨Or.inr h1.1, h1.2⟩

theorem processGrantRule_allNodes_pres (env : GraphEnv) (i : Nat) (g : Grant)
    (st : BState) (k : String) (v : String × String × String)
    (h : tlookup st.allNodes k = some v) :
    tlookup (processGrantRule env i g st).1.allNodes k = some v := by
  unfold processGrantRule
  simp only []
  rw [edgePairFold_allNodes (fun s d => grantEdgeMetaOf g i s d)]
  refine fold_allNodes_pres (fun st2 d => grantDstVisit env g i st2 d)
    (fun st x k v h => grantDstVisit_pres env g i st x k v h)
    (resolveGrantDestinations g) _ k v ?_
  exact fold_allNodes_pres (fun st2 s => grantSrcVisit env g i st2 s)
    (fun st x k v h => grantSrcVisit_pres env g i st x k v h) (resolveNodes g.src) _ k v h

theorem processAclRule_allNodes_isSome (env : GraphEnv) (i : Nat) (r : Acl) (st : BState)
    (k : String) (h : k ∈ r.src ∨ k ∈ r.dst) :
    (tlookup (processAclRule env i r st).1.allNodes k).isSome := by
  unfold processAclRule
  simp only []
  rw [edgePairFold_allNodes (fun s d => aclEdgeMetaOf r i s d)]
  rcases h with h | h
  · have h1 : (tlookup ((resolveNodes r.src).foldl (aclSrcVisit env i) st).allNodes k).isSome := by
      refine fold_allNodes_isSome (aclSrcVisit env i)
        (fun st x k v h => aclSrcVisit_pres env i st x k v h)
        (fun st x => aclSrcVisit_isSome env i st x) (resolveNodes r.src) st k ?_
      simp [resolveNodes, h]
    cases hv : tlookup ((resolveNodes r.src).foldl (aclSrcVisit env i) st).allNodes k with
    | none => rw [hv] at h1; simp at h1
    | some v =>
      have := fold_allNodes_pres (aclDstVisit env i)
        (fun st x k v h => aclDstVisit_pres env i st x k v h)
        (resolveNodes r.dst) _ k v hv
      rw [this]
      rfl
  · refine fold_allNodes_isSome (aclDstVisit env i)
      (fun st x k v h => aclDstVisit_pres env i st x k v h)
      (fun st x => aclDstVisit_isSome env i st x) (resolveNodes r.dst) _ k ?_
    simp [resolveNodes, h]

theorem processAclsFrom_allNodes_cases (env : GraphEnv) :
    ∀ (acls : List Acl) (i0 : Nat) (st : BState) (k : String)
      (v : String × String × String),
      tlookup (processAclsFrom env i0 acls st).1.allNodes k = some v →
        tlookup st.allNodes k = some v ∨ (RefAcl acls k ∧ v.2.2 = "dot") := by
  intro acls
  induction acls with
  | nil => intro i0 st k v h; exact Or.inl h
  | cons r rest ih =>
    intro i0 st k v h
    unfold processAclsFrom at h
    simp only [] at h
    rcases ih (i0 + 1) _ k v h with h1 | h1
    · rcases processAclRule_allNodes_cases env i0 r st k v h1 with h2 | h2
      · exact Or.inl h2
      · exact Or.inr ⟨⟨r, List.mem_cons_self r rest, h2.1⟩, h2.2⟩
    · obtain ⟨⟨r2, hr2, hm⟩, hsh⟩ := h1
      exact Or.inr ⟨⟨r2, List.mem_cons_of_mem r hr2, hm⟩, hsh⟩

theorem processAclsFrom_allNodes_pres (env : GraphEnv) :
    ∀ (acls : List Acl) (i0 : Nat) (st : BState) (k : String)
      (v : String × String × String),
      tlookup st.allNodes k = some v →
        tlookup (processAclsFrom env i0 acls st).1.allNodes k = some v := by
  intro acls
  induction acls with
  | nil => intro i0 st k v h; exact h
  | cons r rest ih =>
    intro i0 st k v h
    unfold processAclsFrom
    simp only []
    exact ih (i0 + 1) _ k v (processAclRule_allNodes_pres env i0 r st k v h)

theorem processAclsFrom_allNodes_isSome (env : GraphEnv) :
    ∀ (acls : List Acl) (i0 : Nat) (st : BState) (k : String), RefAcl acls k →
      (tlookup (processAclsFrom env i0 acls st).1.allNodes k).isSome := by
  intro acls
  induction acls with
  | nil =>
    intro i0 st k h
    obtain ⟨r, hr, _⟩ := h
    simp at hr
  | cons r rest ih =>
    intro i0 st k h
    unfold processAclsFrom
    simp only []
    obtain ⟨r2, hr2, hm⟩ := h
    rcases List.mem_cons.mp hr2 with h2 | h2
    · subst h2
      have h1 := processAclRule_allNodes_isSome env i0 r2 st k hm
      cases hv : tlookup (processAclRule env i0 r2 st).1.allNodes k with
      | none => rw [hv] at h1; simp at h1
      | some v =>
        have := processAclsFrom_allNodes_pres env rest (i0 + 1) _ k v hv
        rw [this]
        rfl
    · exact ih (i0 + 1) _ k ⟨r2, h2, hm⟩

theorem processGrantsFrom_allNodes_cases (env : GraphEnv) :
    ∀ (grants : List Grant) (i0 : Nat) (st : BState) (k : String)
      (v : String × String × String),
      tlookup (processGrantsFrom env i0 grants st).1.allNodes k = some v →
        tlookup st.allNodes k = some v ∨
          ((∃ g ∈ grants, k ∈ g.src ∨ k ∈ resolveGrantDestinations g) ∧
            v.2.2 = "triangle") := by
  intro grants
  induction grants with
  | nil => intro i0 st k v h; exact Or.inl h
  | cons g rest ih =>
    intro i0 st k v h
    unfold processGrantsFrom at h
    simp only [] at h
    rcases ih (i0 + 1) _ k v h with h1 | h1
    · rcases processGrantRule_allNodes_cases env i0 g st k v h1 with h2 | h2
      · exact Or.inl h2
      · exact Or.inr ⟨⟨g, List.mem_cons_self g rest, h2.1⟩, h2.2⟩
    · obtain ⟨⟨g2, hg2, hm⟩, hsh⟩ := h1
      exact Or.inr ⟨⟨g2, List.mem_cons_of_mem g hg2, hm⟩, hsh⟩

theorem processGrantsFrom_allNodes_pres (env : GraphEnv) :
    ∀ (grants : List Grant) (i0 : Nat) (st : BState) (k : String)
      (v : String × String × String),
      tlookup st.allNodes k = some v →
        tlookup (processGrantsFrom env i0 grants st).1.allNodes k = some v := by
  intro grants
  induction grants with
  | nil => intro i0 st k v h; exact h
  | cons g rest ih =>
    intro i0 st k v h
    unfold processGrantsFrom
    simp only []
    exact ih (i0 + 1) _ k v (processGrantRule_allNodes_pres env i0 g st k v h)

theorem processAclsFrom_seen_mem (env : GraphEnv) :
    ∀ (acls : List Acl) (i0 : Nat) (st : BState) (k : String),
      k ∈ (processAclsFrom env i0 acls st).2.2 ↔ RefAcl acls k := by
  intro acls
  induction acls with
  | nil =>
    intro i0 st k
    unfold processAclsFrom RefAcl
    simp
  | cons r rest ih =>
    intro i0 st k
    unfold processAclsFrom processAclRule
    simp only [List.mem_append]
    rw [ih]
    unfold RefAcl
    simp [resolveNodes]

theorem processGrantsFrom_seen_mem (env : GraphEnv) :
    ∀ (grants : List Grant) (i0 : Nat) (st : BState) (k : String),
      k ∈ (processGrantsFrom env i0 grants st).2.2 ↔
        ∃ g ∈ grants, k ∈ g.src ∨ k ∈ (resolveGrantDestinations g).map stripEnhanced := by
  intro grants
  induction grants with
  | nil =>
    intro i0 st k
    unfold processGrantsFrom
    simp
  | cons g rest ih =>
    intro i0 st k
    unfold processGrantsFrom processGrantRule
    simp only [List.mem_append]
    rw [ih]
    simp [resolveNodes]

theorem resolve_map_strip_mem (g : Grant) (hdst : ∀ x ∈ g.dst, cleanId x) (k : String) :
    k ∈ (resolveGrantDestinations g).map stripEnhanced ↔ k ∈ g.dst := by
  unfold resolveGrantDestinations
  cases hip : g.ip with
  | none =>
    simp only []
    constructor
    · intro h
      simp [resolveNodes] at h
      obtain ⟨d, hd, hk⟩ := h
      rw [← hk, cleanId_strip d (hdst d hd)]
      exact hd
    · intro h
      simp only [List.mem_map]
      refine ⟨k, ?_, cleanId_strip k (hdst k h)⟩
      simp [resolveNodes, h]
  | some specs =>
    simp only []
    by_cases hs : specs ≠ ["*"]
    · rw [if_pos hs]
      constructor
      · intro h
        simp [resolveNodes] at h
        obtain ⟨d, hd, hk⟩ := h
        rw [← hk, strip_enhanced_of_clean d _ (hdst d hd)]
        exact hd
      · intro h
        simp only [List.map_map, List.mem_map]
        refine ⟨k, ?_, ?_⟩
        · simp [resolveNodes, h]
        · show stripEnhanced (k ++ " [" ++ joinComma (consolidateIpSpecs specs) ++ "]") = k
          exact strip_enhanced_of_clean k _ (hdst k h)
    · rw [if_neg hs]
      constructor
      · intro h
        simp [resolveNodes] at h
        obtain ⟨d, hd, hk⟩ := h
        rw [← hk, cleanId_strip d (hdst d hd)]
        exact hd
      · intro h
        simp only [List.mem_map]
        refine ⟨k, ?_, cleanId_strip k (hdst k h)⟩
        simp [resolveNodes, h]

theorem resolve_prov (g : Grant) (k : String) (h : k ∈ resolveGrantDestinations g) :
    k ∈ g.dst ∨ ∃ d S, d ∈ g.dst ∧ k = d ++ " [" ++ S ++ "]" := by
  unfold resolveGrantDestinations at h
  cases hip : g.ip with
  | none =>
    rw [hip] at h
    simp only [] at h
    left
    simpa [resolveNodes] using h
  | some specs =>
    rw [hip] at h
    simp only [] at h
    by_cases hs : specs ≠ ["*"]
    · rw [if_pos hs] at h
      simp [resolveNodes] at h
      obtain ⟨d, hd, hk⟩ := h
      exact Or.inr ⟨d, joinComma (consolidateIpSpecs specs), hd, hk.symm⟩
    · rw [if_neg hs] at h
      left
      simpa [resolveNodes] using h

theorem promo_cond_iff (acls : List Acl) (grants : List Grant)
    (hclean : CleanRules acls grants) (AS GS : List String)
    (hA : ∀ m, m ∈ AS ↔ RefAcl acls m)
    (hG : ∀ m, m ∈ GS ↔ RefGrant grants m)
    (k : String)
    (hprov : cleanId k ∨ ∃ d S, d ++ " [" ++ S ++ "]" = k ∧ cleanId d ∧ RefGrant grants d) :
    ((AS.dedup.filter (fun nid => decide (nid ∈ GS))).any
        (fun m => decide (k = m) || enhancedMatches m k)) = true ↔
      RefAcl acls (stripEnhanced k) ∧ RefGrant grants (stripEnhanced k) := by
  have hAclean : ∀ m, RefAcl acls m → cleanId m := by
    rintro m ⟨r, hr, hm | hm⟩
    · exact (hclean.1 r hr).1 m hm
    · exact (hclean.1 r hr).2 m hm
  have hMixed : ∀ m, m ∈ AS.dedup.filter (fun nid => decide (nid ∈ GS)) ↔
      RefAcl acls m ∧ RefGrant grants m := by
    intro m
    rw [List.mem_filter, List.mem_dedup, decide_eq_true_eq, hA, hG]
  rw [List.any_eq_true]
  rcases hprov with hkclean | ⟨d, S, hk2, hdclean, hdref⟩
  · rw [cleanId_strip k hkclean]
    constructor
    · rintro ⟨m, hm, hcm⟩
      rw [Bool.or_eq_true, decide_eq_true_eq] at hcm
      rcases hcm with hcm | hcm
      · subst hcm
        exact (hMixed k).mp hm
      · rw [enhancedMatches_clean_false m k hkclean] at hcm
        exact absurd hcm (by simp)
    · intro h
      exact ⟨k, (hMixed k).mpr h, by simp⟩
  · have hstrip : stripEnhanced k = d := by
      rw [← hk2]
      exact strip_enhanced_of_clean d S hdclean
    rw [hstrip]
    constructor
    · rintro ⟨m, hm, hcm⟩
      have hmclean : cleanId m := hAclean m ((hMixed m).mp hm).1
      rw [Bool.or_eq_true, decide_eq_true_eq] at hcm
      rcases hcm with hcm | hcm
      · exfalso
        apply not_clean_enh d S
        rw [hk2, hcm]
        exact hmclean
      · have he : enhancedMatches m (d ++ " [" ++ S ++ "]") = true := by
          rw [hk2]
          exact hcm
        have hmd : m = d := (enhancedMatches_enh_iff m d S hmclean hdclean).mp he
        rw [← hmd]
        exact (hMixed m).mp hm
    · intro h
      refine ⟨d, (hMixed d).mpr h, ?_⟩
      rw [Bool.or_eq_true]
      right
      rw [← hk2]
      exact (enhancedMatches_enh_iff d d S (hAclean d h.1) hdclean).mpr rfl

/-- C2 (amended): for bracket-free rule identifiers, every node in the
final `build_graph` node table is shaped `hexagon` exactly when its base
id (enhanced ids stripped of the bracket suffix) is referenced by at
least one ACL rule and at least one grant rule; a node whose base id is
referenced only by ACL rules keeps shape `dot`, and one referenced only
by grant rules keeps shape `triangle`.  (Unrestricted, the claim fails:
an ACL destination that textually looks like an enhanced id is tracked
verbatim in the ACL-seen set, so its base id never enters the Phase-2
intersection — see the counterexample.) -/
theorem claim_C2_shape_classification (env : GraphEnv) (acls : List Acl)
    (grants : List Grant) (hclean : CleanRules acls grants)
    (k c tip sh : String)
    (hk : tlookup (buildGraph env acls grants).allNodes k = some (c, tip, sh)) :
    (sh = "hexagon" ↔
      RefAcl acls (stripEnhanced k) ∧ RefGrant grants (stripEnhanced k)) ∧
    (RefAcl acls (stripEnhanced k) ∧ ¬ RefGrant grants (stripEnhanced k) → sh = "dot") ∧
    (¬ RefAcl acls (stripEnhanced k) ∧ RefGrant grants (stripEnhanced k) →
      sh = "triangle") := by
  have hbg : (buildGraph env acls grants).allNodes =
      updateComprehensiveTooltips env
        (processGrantsFrom env 0 grants
          (processAclsFrom env 0 acls ⟨[], [], []⟩).1).1.nodeMeta
        (promoteMixed
          ((processAclsFrom env 0 acls ⟨[], [], []⟩).2.2.dedup.filter
            (fun nid => decide (nid ∈ (processGrantsFrom env 0 grants
              (processAclsFrom env 0 acls ⟨[], [], []⟩).1).2.2)))
          (processGrantsFrom env 0 grants
            (processAclsFrom env 0 acls ⟨[], [], []⟩).1).1.allNodes) := rfl
  rw [hbg, tlookup_updateTooltips, promoteMixed_lookup] at hk
  cases hv2 : tlookup (processGrantsFrom env 0 grants
      (processAclsFrom env 0 acls ⟨[], [], []⟩).1).1.allNodes k with
  | none =>
    rw [hv2] at hk
    exact absurd hk (by simp)
  | some v2 =>
    rw [hv2] at hk
    simp only [Option.map_some'] at hk
    have hv2cases := processGrantsFrom_allNodes_cases env grants 0 _ k v2 hv2
    have hprov : cleanId k ∨
        ∃ d S, d ++ " [" ++ S ++ "]" = k ∧ cleanId d ∧ RefGrant grants d := by
      rcases hv2cases with h1 | h1
      · rcases processAclsFrom_allNodes_cases env acls 0 _ k v2 h1 with h2 | h2
        · exact absurd h2 (by simp [tlookup])
        · left
          rcases h2.1 with ⟨r, hr, hm | hm⟩
          · exact (hclean.1 r hr).1 k hm
          · exact (hclean.1 r hr).2 k hm
      · obtain ⟨⟨g, hg, hmem⟩, _⟩ := h1
        rcases hmem with h | h
        · exact Or.inl ((hclean.2 g hg).1 k h)
        · rcases resolve_prov g k h with h2 | h2
          · exact Or.inl ((hclean.2 g hg).2 k h2)
          · obtain ⟨d, S, hd, hk2⟩ := h2
            exact Or.inr ⟨d, S, hk2.symm, (hclean.2 g hg).2 d hd, ⟨g, hg, Or.inr hd⟩⟩
    have hAclean : ∀ m, RefAcl acls m → cleanId m := by
      rintro m ⟨r, hr, hm | hm⟩
      · exact (hclean.1 r hr).1 m hm
      · exact (hclean.1 r hr).2 m hm
    have hG : ∀ m, m ∈ (processGrantsFrom env 0 grants
        (processAclsFrom env 0 acls ⟨[], [], []⟩).1).2.2 ↔ RefGrant grants m := by
      intro m
      rw [processGrantsFrom_seen_mem]
      constructor
      · rintro ⟨g, hg, hm | hm⟩
        · exact ⟨g, hg, Or.inl hm⟩
        · exact ⟨g, hg, Or.inr ((resolve_map_strip_mem g (hclean.2 g hg).2 m).mp hm)⟩
      · rintro ⟨g, hg, hm | hm⟩
        · exact ⟨g, hg, Or.inl hm⟩
        · exact ⟨g, hg, Or.inr ((resolve_map_strip_mem g (hclean.2 g hg).2 m).mpr hm)⟩
    have hcond := promo_cond_iff acls grants hclean
      (processAclsFrom env 0 acls ⟨[], [], []⟩).2.2
      (processGrantsFrom env 0 grants (processAclsFrom env 0 acls ⟨[], [], []⟩).1).2.2
      (fun m => processAclsFrom_seen_mem env acls 0 ⟨[], [], []⟩ m) hG k hprov
    have hdot : RefAcl acls k → v2.2.2 = "dot" := by
      intro hA2
      have h1 := processAclsFrom_allNodes_isSome env acls 0 ⟨[], [], []⟩ k hA2
      cases hv1 : tlookup (processAclsFrom env 0 acls ⟨[], [], []⟩).1.allNodes k with
      | none => rw [hv1] at h1; simp at h1
      | some v1 =>
        have hp := processGrantsFrom_allNodes_pres env grants 0 _ k v1 hv1
        rw [hv2] at hp
        obtain rfl := Option.some.inj hp
        rcases processAclsFrom_allNodes_cases env acls 0 _ k _ hv1 with h2 | h2
        · exact absurd h2 (by simp [tlookup])
        · exact h2.2
    by_cases hRR : RefAcl acls (stripEnhanced k) ∧ RefGrant grants (stripEnhanced k)
    · rw [if_pos (hcond.mpr hRR)] at hk
      have hsh : sh = "hexagon" := (congrArg (fun p => p.2.2) (Option.some.inj hk)).symm
      exact ⟨⟨fun _ => hRR, fun _ => hsh⟩, fun h => absurd hRR.2 h.2,
        fun h => absurd hRR.1 h.1⟩
    · have hcn : ¬((processAclsFrom env 0 acls ⟨[], [], []⟩).2.2.dedup.filter
          (fun nid => decide (nid ∈ (processGrantsFrom env 0 grants
            (processAclsFrom env 0 acls ⟨[], [], []⟩).1).2.2))).any
          (fun m => decide (k = m) || enhancedMatches m k) = true :=
        fun hx => hRR (hcond.mp hx)
      rw [if_neg hcn] at hk
      have hsh : sh = v2.2.2 := (congrArg (fun p => p.2.2) (Option.some.inj hk)).symm
      have hshape : v2.2.2 = "dot" ∨ v2.2.2 = "triangle" := by
        rcases hv2cases with h1 | h1
        · rcases processAclsFrom_allNodes_cases env acls 0 _ k v2 h1 with h2 | h2
          · exact absurd h2 (by simp [tlookup])
          · exact Or.inl h2.2
        · exact Or.inr h1.2
      refine ⟨⟨?_, fun h => absurd h hRR⟩, ?_, ?_⟩
      · intro hhex
        exfalso
        rcases hshape with h | h
        · rw [hsh, h] at hhex
          exact absurd hhex (by decide)
        · rw [hsh, h] at hhex
          exact absurd hhex (by decide)
      · rintro ⟨h1, h2⟩
        rcases hprov with hkclean | ⟨d, S, hk2, hdclean, hdref⟩
        · rw [cleanId_strip k hkclean] at h1
          rw [hsh]
          exact hdot h1
        · exfalso
          apply h2
          rw [← hk2, strip_enhanced_of_clean d S hdclean]
          exact hdref
      · rintro ⟨h1, h2⟩
        rcases hv2cases with hB | hB
        · rcases processAclsFrom_allNodes_cases env acls 0 _ k v2 hB with hA2 | hA2
          · exact absurd hA2 (by simp [tlookup])
          · exfalso
            rcases hprov with hkclean | ⟨d, S, hk2, hdclean, hdref⟩
            · rw [cleanId_strip k hkclean] at h1
              exact h1 hA2.1
            · apply not_clean_enh d S
              rw [hk2]
              exact hAclean k hA2.1
        · rw [hsh]
          exact hB.2

/-- C2 counterexample (unrestricted claim): the ACL destination id
`"server [x]"` textually looks like an enhanced id, so its base id is
`"server"`, which a grant also references; the claim then demands both
nodes become hexagons, but the Phase-2 intersection compares the
verbatim ACL-seen ids with the grant-seen base ids, finds no overlap,
and leaves the ACL node a dot and the grant node a triangle. -/
theorem claim_C2_counterexample :
    stripEnhanced "server [x]" = "server" ∧
    ((tlookup (buildGraph { hosts := [], groups := [] }
        [{ action := some "accept", src := ["u"], dst := ["server [x]"] }]
        [{ src := ["g"], dst := ["server"] }]).allNodes "server [x]").map
      (fun v => v.2.2) = some "dot") ∧
    ((tlookup (buildGraph { hosts := [], groups := [] }
        [{ action := some "accept", src := ["u"], dst := ["server [x]"] }]
        [{ src := ["g"], dst := ["server"] }]).allNodes "server").map
      (fun v => v.2.2) = some "triangle") :=
  ⟨rfl, rfl, rfl⟩

/-- Witness for the amended C2 theorem: the node `"server"` referenced
by both an ACL rule and a grant rule is classified as a hexagon. -/
theorem claim_C2_witness :
    CleanRules [{ action := some "accept", src := ["u"], dst := ["server"] }]
      [({ src := ["u"], dst := ["server"] } : Grant)] ∧
    tlookup (buildGraph { hosts := [], groups := [] }
        [{ action := some "accept", src := ["u"], dst := ["server"] }]
        [{ src := ["u"], dst := ["server"] }]).allNodes "server" =
      some ("#ff6666",
        "server\n🔄 Mixed (ACL + Grant Rules)\n📋 Rule References:\n  • Destination: ACL rule 1, Grant rule 1",
        "hexagon") ∧
    (("hexagon" = "hexagon" ↔
      RefAcl [{ action := some "accept", src := ["u"], dst := ["server"] }]
          (stripEnhanced "server") ∧
        RefGrant [({ src := ["u"], dst := ["server"] } : Grant)] (stripEnhanced "server")) ∧
    (RefAcl [{ action := some "accept", src := ["u"], dst := ["server"] }]
          (stripEnhanced "server") ∧
        ¬ RefGrant [({ src := ["u"], dst := ["server"] } : Grant)] (stripEnhanced "server") →
      "hexagon" = "dot") ∧
    (¬ RefAcl [{ action := some "accept", src := ["u"], dst := ["server"] }]
          (stripEnhanced "server") ∧
        RefGrant [({ src := ["u"], dst := ["server"] } : Grant)] (stripEnhanced "server") →
      "hexagon" = "triangle")) :=
  ⟨by unfold CleanRules cleanId; decide, rfl,
   claim_C2_shape_classification { hosts := [], groups := [] }
     [{ action := some "accept", src := ["u"], dst := ["server"] }]
     [{ src := ["u"], dst := ["server"] }]
     (by unfold CleanRules cleanId; decide) "server" "#ff6666"
     "server\n🔄 Mixed (ACL + Grant Rules)\n📋 Rule References:\n  • Destination: ACL rule 1, Grant rule 1"
     "hexagon" rfl⟩

end TSMap

